import Mathlib

/-!
A verification development for the satnet-simulator repository.

The Go source is shallowly embedded: float64 delay values become rationals
(the code only adds, multiplies by constants and compares them), packet ids
become integers, Go maps become association lists looked up from the front
(an assignment prepends, so the newest binding shadows older ones exactly as
a map overwrite does), and the ambient math/rand stream becomes an explicit
function field of the state.  Transcendental code (the SPRT and the Bayesian
tracker, which call math.Exp and math.Log) is embedded over the reals with
Real.exp and Real.log.  Calls into the Go sort package are embedded by the
documented contract of sort.Slice: the result is a permutation of the input
that is sorted by the comparator, and stability is not guaranteed.
-/

namespace SatNet

/-- Result of a comparison query, from verification/query.go. -/
inductive ComparisonResult where
  | packet1Faster
  | packet2Faster
  | packetsEqual
deriving DecidableEq, Repr

/-- Ground-truth record of one transmission, from verification/query.go
(struct TransmissionRecord). -/
structure TransmissionRecord where
  packetID : ℤ
  sentTime : ℚ
  receivedTime : ℚ
  pathUsed : String
  pathDelay : ℚ
  actualDelay : ℚ
  minDelay : ℚ
  maliciousDelay : ℚ
  isShortestPath : Bool
  wasDelayed : Bool
deriving DecidableEq, Repr

/-- FlaggingStrategy from the strategic oracle source. -/
inductive FlaggingStrategy where
  | flagNone
  | flagRandom
  | flagLowDelay
  | flagActualDelayed
deriving DecidableEq, Repr

/-- AnsweringStrategy from the strategic oracle source. -/
inductive AnsweringStrategy where
  | answerHonest
  | answerRandom
  | answerClaimLowerObserved
  | answerConsistent
deriving DecidableEq, Repr

/-- State of the StrategicOracle.  Go maps become association lists; the
ambient math/rand source becomes the rng stream together with a cursor. -/
structure StrategicOracle where
  flaggingStrat : FlaggingStrategy
  answeringStrat : AnsweringStrategy
  flagProbability : ℚ
  lowDelayPercentile : ℚ
  groundTruth : List TransmissionRecord
  shortestPath : String
  shortestDelay : ℚ
  flaggedPackets : List ℤ
  claimedMinDelays : List (ℤ × ℚ)
  comparisonHistory : List ((ℤ × ℤ) × ComparisonResult)
  queriesAnswered : ℤ
  liesTold : ℤ
  packetsFlagged : ℤ
  rng : ℕ → ℕ
  rngIndex : ℕ

/-- Association-list lookup modelling access to the Go map
comparisonHistory, whose string key razor (two decimal integers joined by a
dash) is injective on pairs of ids. -/
def histLookup (k : ℤ × ℤ) : List ((ℤ × ℤ) × ComparisonResult) → Option ComparisonResult
  | [] => none
  | (k', v) :: rest => if k' = k then some v else histLookup k rest

/-- Association-list lookup modelling access to the Go map claimedMinDelays. -/
def claimLookup (id : ℤ) : List (ℤ × ℚ) → Option ℚ
  | [] => none
  | (i, v) :: rest => if i = id then some v else claimLookup id rest

/-- StrategicOracle.FindRecordByID: linear scan for the first record with the
given id. -/
def StrategicOracle.findRecordByID (o : StrategicOracle) (packetID : ℤ) :
    Option TransmissionRecord :=
  o.groundTruth.find? (fun r => r.packetID = packetID)

/-- StrategicOracle.IsFlagged: Go map membership, default false. -/
def StrategicOracle.isFlagged (o : StrategicOracle) (packetID : ℤ) : Bool :=
  packetID ∈ o.flaggedPackets

/-- StrategicOracle.computeTruth: ordering of the true MinDelay values with
the 0.001 tolerance. -/
def computeTruth (rec1 rec2 : TransmissionRecord) : ComparisonResult :=
  if rec1.minDelay < rec2.minDelay - 1/1000 then .packet1Faster
  else if rec2.minDelay < rec1.minDelay - 1/1000 then .packet2Faster
  else .packetsEqual

/-- StrategicOracle.reverseComparison. -/
def reverseComparison : ComparisonResult → ComparisonResult
  | .packet1Faster => .packet2Faster
  | .packet2Faster => .packet1Faster
  | .packetsEqual => .packetsEqual

/-- StrategicOracle.answerRandom: options are Packet1Faster, Packet2Faster,
PacketsEqual and rand.Intn 3 picks an index from the ambient stream. -/
def StrategicOracle.answerRandom (o : StrategicOracle) :
    ComparisonResult × StrategicOracle :=
  let k := o.rng o.rngIndex % 3
  let res : ComparisonResult :=
    if k = 0 then .packet1Faster else if k = 1 then .packet2Faster else .packetsEqual
  (res, { o with rngIndex := o.rngIndex + 1 })

/-- StrategicOracle.answerClaimLowerObserved: ordering of observed
ActualDelay values with the 0.001 tolerance. -/
def answerClaimLowerObserved (rec1 rec2 : TransmissionRecord) : ComparisonResult :=
  if rec1.actualDelay < rec2.actualDelay - 1/1000 then .packet1Faster
  else if rec2.actualDelay < rec1.actualDelay - 1/1000 then .packet2Faster
  else .packetsEqual

/-- StrategicOracle.answerConsistent.  Both map reads happen before either
insertion, exactly as in the Go body; a map assignment is modelled by
prepending, which shadows any older binding. -/
def StrategicOracle.answerConsistent (o : StrategicOracle)
    (rec1 rec2 : TransmissionRecord) : ComparisonResult × StrategicOracle :=
  let flagged1 := o.isFlagged rec1.packetID
  let flagged2 := o.isFlagged rec2.packetID
  let c1 := claimLookup rec1.packetID o.claimedMinDelays
  let c2 := claimLookup rec2.packetID o.claimedMinDelays
  match c1, c2 with
  | some claimed1, some claimed2 =>
      (if claimed1 < claimed2 - 1/1000 then .packet1Faster
       else if claimed2 < claimed1 - 1/1000 then .packet2Faster
       else .packetsEqual, o)
  | c1, c2 =>
      let claimed1 := c1.getD
        (if flagged1 then rec1.actualDelay * (9/10) else rec1.minDelay)
      let m1 := if c1.isSome then o.claimedMinDelays
        else (rec1.packetID, claimed1) :: o.claimedMinDelays
      let claimed2 := c2.getD
        (if flagged2 then rec2.actualDelay * (9/10) else rec2.minDelay)
      let m2 := if c2.isSome then m1 else (rec2.packetID, claimed2) :: m1
      (if claimed1 < claimed2 - 1/1000 then .packet1Faster
       else if claimed2 < claimed1 - 1/1000 then .packet2Faster
       else .packetsEqual, { o with claimedMinDelays := m2 })

/-- The query-counter increment at the top of AnswerComparison, factored out
so that the rest of the body can be reasoned about separately. -/
def StrategicOracle.bumpQueries (o : StrategicOracle) : StrategicOracle :=
  { o with queriesAnswered := o.queriesAnswered + 1 }

/-- The lie-counter update of AnswerComparison: LiesTold is incremented when
the produced answer differs from the honest one. -/
def StrategicOracle.recordLie (o : StrategicOracle)
    (truth answer : ComparisonResult) : StrategicOracle :=
  if answer ≠ truth then { o with liesTold := o.liesTold + 1 } else o

/-- The memo write at the end of AnswerComparison: a map assignment, modelled
by a shadowing prepend. -/
def StrategicOracle.memoise (o : StrategicOracle) (key : ℤ × ℤ)
    (answer : ComparisonResult) : StrategicOracle :=
  { o with comparisonHistory := (key, answer) :: o.comparisonHistory }

/-- The switch over AnsweringStrat inside AnswerComparison: the fresh
strategy-prescribed answer, together with the state effects of the chosen
strategy (the RNG advance of answerRandom or the claim writes of
answerConsistent). -/
def StrategicOracle.strategyAnswer (o : StrategicOracle)
    (rec1 rec2 : TransmissionRecord) : ComparisonResult × StrategicOracle :=
  match o.answeringStrat with
  | .answerHonest => (computeTruth rec1 rec2, o)
  | .answerRandom => o.answerRandom
  | .answerClaimLowerObserved => (answerClaimLowerObserved rec1 rec2, o)
  | .answerConsistent => o.answerConsistent rec1 rec2

/-- Body of StrategicOracle.AnswerComparison after the counter increment:
return Equal on an unknown packet, consult the memo under both orderings,
otherwise compute the strategy answer, bump the lie counter when it differs
from the truth, and memoise it. -/
def StrategicOracle.answerComparisonAux (o : StrategicOracle)
    (packetID1 packetID2 : ℤ) : ComparisonResult × StrategicOracle :=
  match o.findRecordByID packetID1, o.findRecordByID packetID2 with
  | some rec1, some rec2 =>
    (match histLookup (packetID1, packetID2) o.comparisonHistory with
     | some prev => (prev, o)
     | none =>
       match histLookup (packetID2, packetID1) o.comparisonHistory with
       | some prev => (reverseComparison prev, o)
       | none =>
         let ao := o.strategyAnswer rec1 rec2
         (ao.1, (ao.2.recordLie (computeTruth rec1 rec2) ao.1).memoise
            (packetID1, packetID2) ao.1))
  | _, _ => (.packetsEqual, o)

/-- StrategicOracle.AnswerComparison: the counter bump followed by the body. -/
def StrategicOracle.answerComparison (o : StrategicOracle)
    (packetID1 packetID2 : ℤ) : ComparisonResult × StrategicOracle :=
  o.bumpQueries.answerComparisonAux packetID1 packetID2

/-- A sequence of comparison queries answered in order, discarding the
responses; this is the state evolution of the oracle during a trial. -/
def runComparisons (o : StrategicOracle) : List (ℤ × ℤ) → StrategicOracle
  | [] => o
  | q :: qs => runComparisons (o.answerComparison q.1 q.2).2 qs

/-- The answer the memo commits the oracle to for the ordered pair (a, b):
the stored answer under (a, b), or the swap of the stored answer under
(b, a). -/
def memoAnswer (o : StrategicOracle) (a b : ℤ) : Option ComparisonResult :=
  match histLookup (a, b) o.comparisonHistory with
  | some v => some v
  | none => (histLookup (b, a) o.comparisonHistory).map reverseComparison

/-- At most one of the two orderings of a pair carries a memo entry; this
holds in every state reachable from an empty history because an entry is
stored only when both orderings miss. -/
def MirrorFree (h : List ((ℤ × ℤ) × ComparisonResult)) : Prop :=
  ∀ a b : ℤ, a ≠ b → histLookup (a, b) h = none ∨ histLookup (b, a) h = none

/-- The claimed minimum the Consistent strategy assigns to a packet the
first time it is seen: observed total times 0.9 when flagged, the true
minimum otherwise. -/
def claimedValue (o : StrategicOracle) (r : TransmissionRecord) : ℚ :=
  if o.isFlagged r.packetID then r.actualDelay * (9/10) else r.minDelay

/-- The delay comparison with the 0.001 tie tolerance, the pattern the
source repeats inline in computeTruth, answerClaimLowerObserved and
answerConsistent. -/
def cmpDelays (x y : ℚ) : ComparisonResult :=
  if x < y - 1/1000 then .packet1Faster
  else if y < x - 1/1000 then .packet2Faster
  else .packetsEqual

/-- Trial invariant of the Consistent strategy relative to the start state
o0: the strategy and the batch data are unchanged, every stored claim is the
canonical claimed value of the record it belongs to, and every memo entry is
the tolerance comparison of the two canonical claimed values, with both
claims already stored. -/
def ConsistentInv (o0 o : StrategicOracle) : Prop :=
  o.answeringStrat = .answerConsistent ∧
  o.groundTruth = o0.groundTruth ∧
  o.flaggedPackets = o0.flaggedPackets ∧
  (∀ p v, claimLookup p o.claimedMinDelays = some v →
     ∃ r, o0.findRecordByID p = some r ∧ v = claimedValue o0 r) ∧
  (∀ a b v, histLookup (a, b) o.comparisonHistory = some v →
     ∃ ra rb, o0.findRecordByID a = some ra ∧ o0.findRecordByID b = some rb ∧
       v = cmpDelays (claimedValue o0 ra) (claimedValue o0 rb))

/-- A concrete transmission record used by the witnesses. -/
def witnessRecord1 : TransmissionRecord :=
  ⟨1, 0, 10, "LEO", 5, 7, 5, 0, true, false⟩

/-- A second concrete transmission record used by the witnesses. -/
def witnessRecord2 : TransmissionRecord :=
  ⟨2, 0, 12, "LEO", 6, 9, 6, 0, true, false⟩

/-- A concrete honest oracle state at the start of a trial. -/
def witnessOracle : StrategicOracle :=
  { flaggingStrat := .flagNone, answeringStrat := .answerHonest,
    flagProbability := 1/2, lowDelayPercentile := 1/10,
    groundTruth := [witnessRecord1, witnessRecord2],
    shortestPath := "LEO", shortestDelay := 1,
    flaggedPackets := [], claimedMinDelays := [], comparisonHistory := [],
    queriesAnswered := 0, liesTold := 0, packetsFlagged := 0,
    rng := fun _ => 0, rngIndex := 0 }

/-- The witness oracle under the Consistent strategy with packet 1 flagged. -/
def witnessOracleC : StrategicOracle :=
  { witnessOracle with
    answeringStrat := AnsweringStrategy.answerConsistent
    flaggedPackets := [1] }

/-- Contradiction.Type constants from verification/contradiction.go. -/
inductive ContradictionType where
  | transitivityViolation
  | temporalMismatch
  | physicalImpossible
  | commitmentViolation
  | pathMismatch
  | delayMismatch
  | crossInterval
  | hashMismatch
deriving DecidableEq, Repr

/-- A detected contradiction.  The Description string and the diagnostic
copies of the offending queries, responses and ground truth are display-only
in the source and are not modelled. -/
structure Contradiction where
  ctype : ContradictionType
  severity : ℚ
  cycle : List ℤ
deriving DecidableEq, Repr

/-- TransitivityChecker state: the directed claimed-faster graph as an edge
list (a deterministic refinement of the Go nested map, whose iteration order
is unspecified), and the query record map. -/
structure TransitivityChecker where
  graph : List (ℤ × ℤ)
  queryRecord : List ((ℤ × ℤ) × ℤ)
deriving Repr

/-- NewTransitivityChecker. -/
def newTransitivityChecker : TransitivityChecker := ⟨[], []⟩

/-- The successors of a node in the claimed-faster graph. -/
def neighbors (g : List (ℤ × ℤ)) (n : ℤ) : List ℤ :=
  g.filterMap (fun e => if e.1 = n then some e.2 else none)

mutual

/-- The recursive dfs closure of findCycle: skip a visited node, otherwise
mark it and scan its successors.  The result carries the visited set and the
parent map; the fuel only bounds the recursion depth, which the visited set
keeps below the node count, so a fuel larger than that never runs out. -/
def dfsGo (g : List (ℤ × ℤ)) (start : ℤ) :
    ℕ → ℤ → List ℤ → List (ℤ × ℤ) → Bool × List ℤ × List (ℤ × ℤ)
  | 0, _, vis, par => (false, vis, par)
  | fuel + 1, node, vis, par =>
    if node ∈ vis then (false, vis, par)
    else dfsNbrs g start fuel (neighbors g node) node (node :: vis) par

/-- The loop over the successors of a node inside dfs: success when the
successor is the start node, otherwise record the parent edge and recurse. -/
def dfsNbrs (g : List (ℤ × ℤ)) (start : ℤ) :
    ℕ → List ℤ → ℤ → List ℤ → List (ℤ × ℤ) → Bool × List ℤ × List (ℤ × ℤ)
  | _, [], _, vis, par => (false, vis, par)
  | fuel, nb :: rest, node, vis, par =>
    if nb = start then (true, vis, par)
    else
      let r := dfsGo g start fuel nb vis ((nb, node) :: par)
      if r.1 then r
      else dfsNbrs g start fuel rest node r.2.1 r.2.2

end

/-- One scan of the successors of the current node inside reconstructCycle:
stop when the start node reappears, otherwise step to the first successor
recorded in the parent map. -/
inductive ReconStep where
  | hitStart
  | next (nb : ℤ)
  | stuck
deriving DecidableEq, Repr

/-- The inner neighbor loop of reconstructCycle. -/
def reconScan (start : ℤ) (parentKeys : List ℤ) : List ℤ → ReconStep
  | [] => .stuck
  | nb :: rest =>
    if nb = start then .hitStart
    else if nb ∈ parentKeys ∨ nb = start then .next nb
    else reconScan start parentKeys rest

/-- The outer loop of reconstructCycle: append the chosen successor and
continue from it; stop on the start node, on a stuck scan, or past 100
entries.  The Go loop appends at most one node per iteration, so fuel 102
covers the 100-entry guard exactly. -/
def reconstructCycleAux (g : List (ℤ × ℤ)) (start : ℤ) (parentKeys : List ℤ) :
    ℕ → ℤ → List ℤ → List ℤ
  | 0, _, cycle => cycle
  | fuel + 1, current, cycle =>
    match reconScan start parentKeys (neighbors g current) with
    | .hitStart => cycle
    | .stuck => cycle
    | .next nb =>
      let cycle2 := cycle ++ [nb]
      if 100 < cycle2.length then cycle2
      else reconstructCycleAux g start parentKeys fuel nb cycle2

/-- TransitivityChecker.reconstructCycle. -/
def reconstructCycle (g : List (ℤ × ℤ)) (start : ℤ)
    (parent : List (ℤ × ℤ)) : List ℤ :=
  reconstructCycleAux g start (parent.map Prod.fst) 102 start [start]

/-- The loop over the successors of the start node inside findCycle: the
visited set is reset for each successor while the parent map accumulates,
exactly as in the Go body. -/
def findCycleNbrs (g : List (ℤ × ℤ)) (start : ℤ) (fuel : ℕ) :
    List ℤ → List (ℤ × ℤ) → Option (List ℤ)
  | [], _ => none
  | nb :: rest, par =>
    if nb = start then some [start]
    else
      let r := dfsGo g start fuel nb [start] ((nb, start) :: par)
      if r.1 then some (reconstructCycle g start r.2.2)
      else findCycleNbrs g start fuel rest r.2.2

/-- TransitivityChecker.findCycle.  The fuel 2|graph|+2 exceeds the node
count bound on the dfs depth. -/
def TransitivityChecker.findCycle (tc : TransitivityChecker) (start : ℤ) :
    Option (List ℤ) :=
  findCycleNbrs tc.graph start (2 * tc.graph.length + 2)
    (neighbors tc.graph start) []

/-- TransitivityChecker.AddComparison: insert the edge and the query record,
then search for a cycle through the new tail; a found cycle is a severity-1.0
TRANSITIVITY_VIOLATION. -/
def TransitivityChecker.addComparison (tc : TransitivityChecker)
    (fasterPacket slowerPacket queryID : ℤ) :
    Option Contradiction × TransitivityChecker :=
  let g := if (fasterPacket, slowerPacket) ∈ tc.graph then tc.graph
    else (fasterPacket, slowerPacket) :: tc.graph
  let tc2 : TransitivityChecker :=
    { graph := g,
      queryRecord := ((fasterPacket, slowerPacket), queryID) :: tc.queryRecord }
  match tc2.findCycle fasterPacket with
  | some cycle =>
    (some { ctype := .transitivityViolation, severity := 1, cycle := cycle }, tc2)
  | none => (none, tc2)

/-- ContradictionDetector.GetDefinitiveContradictions: the contradictions of
severity at least 0.99. -/
def definitiveContradictions (cs : List Contradiction) : List Contradiction :=
  cs.filter (fun c => 99/100 ≤ c.severity)

/-- QueryType constants from verification/query.go, in declaration order. -/
inductive QueryType where
  | comparison
  | ordering
  | pathHash
  | delayBound
  | congestionFlag
  | shortestPath
  | delay
  | pathUsed
  | packetCount
deriving DecidableEq, Repr

/-- TimeInterval from verification/query.go; the second field is called End
in Go. -/
structure TimeInterval where
  start : ℚ
  stop : ℚ
deriving DecidableEq, Repr

/-- Query struct from verification/query.go. -/
structure Query where
  id : ℤ
  qtype : QueryType
  interval : TimeInterval
  packetID : ℤ
  packetID2 : ℤ
  packetIDs : List ℤ
  pathName : String
  pathHash : String
  delayThreshold : ℚ
deriving DecidableEq, Repr

/-- Response struct from verification/query.go. -/
structure Response where
  queryID : ℤ
  query : Query
  answerTime : ℚ
  boolAnswer : Bool
  floatAnswer : ℚ
  stringAnswer : String
  comparisonAnswer : ComparisonResult
  orderingAnswer : List ℤ
deriving DecidableEq, Repr

/-- The key type of the CommitmentChecker response map. -/
def QueryKey : Type := QueryType × ℤ × ℤ × String × ℤ × ℤ

instance : DecidableEq QueryKey := by
  unfold QueryKey
  infer_instance

/-- The %.2f rendering of a float in the query hash: the value rounded to
hundredths, written on the numerator and denominator directly so that it
evaluates by kernel reduction; it equals the floor of 100 x + 1/2. -/
def fmt2 (x : ℚ) : ℤ := Int.fdiv (200 * x.num + x.den) (2 * x.den)

/-- CommitmentChecker.queryHash.  The Go code renders the six fields into a
dash-separated string; that rendering is injective on the fields (a dash can
occur only at the front of a number, never inside one), so the tuple of the
six fields models the key exactly. -/
def queryHash (q : Query) : QueryKey :=
  (q.qtype, q.packetID, q.packetID2, q.pathName,
    fmt2 q.interval.start, fmt2 q.interval.stop)

/-- Association-list lookup modelling access to the Go map ResponseHistory. -/
def respLookup (k : QueryKey) :
    List (QueryKey × Response) → Option Response
  | [] => none
  | (k', v) :: rest => if k' = k then some v else respLookup k rest

/-- CommitmentChecker state. -/
structure CommitmentChecker where
  responseHistory : List (QueryKey × Response)

/-- NewCommitmentChecker. -/
def newCommitmentChecker : CommitmentChecker := ⟨[]⟩

/-- CommitmentChecker.CheckAndRecord: on a repeat of the same hash, compare
the new response with the stored one per query kind; a mismatch is returned
as a severity-1.0 COMMITMENT_VIOLATION without storing (the Go body returns
early), otherwise the response is stored under the hash. -/
def CommitmentChecker.checkAndRecord (cc : CommitmentChecker)
    (q : Query) (r : Response) : Option Contradiction × CommitmentChecker :=
  match respLookup (queryHash q) cc.responseHistory with
  | some prev =>
    let inconsistent : Bool :=
      match q.qtype with
      | .comparison => decide (r.comparisonAnswer ≠ prev.comparisonAnswer)
      | .pathHash => decide (r.stringAnswer ≠ prev.stringAnswer)
      | .delayBound => decide (r.boolAnswer ≠ prev.boolAnswer)
      | .shortestPath => decide (r.boolAnswer ≠ prev.boolAnswer)
      | .delay => decide ((1 : ℚ)/100 < |r.floatAnswer - prev.floatAnswer|)
      | .pathUsed => decide (r.stringAnswer ≠ prev.stringAnswer)
      | _ => false
    if inconsistent then
      (some { ctype := .commitmentViolation, severity := 1, cycle := [] }, cc)
    else
      (none, { responseHistory := (queryHash q, r) :: cc.responseHistory })
  | none =>
    (none, { responseHistory := (queryHash q, r) :: cc.responseHistory })

/-- A Compare query with the given id and packet pair, all other fields at
their zero values, as the verifier builds them. -/
def cmpQuery (i a b : ℤ) : Query :=
  { id := i, qtype := .comparison, interval := ⟨0, 0⟩,
    packetID := a, packetID2 := b, packetIDs := [],
    pathName := "", pathHash := "", delayThreshold := 0 }

/-- A response to a Compare query carrying the given answer. -/
def cmpResponse (q : Query) (ans : ComparisonResult) : Response :=
  { queryID := q.id, query := q, answerTime := 0, boolAnswer := false,
    floatAnswer := 0, stringAnswer := "", comparisonAnswer := ans,
    orderingAnswer := [] }

/-- The scheduling effect of an event action: the list of Schedule calls
(delay, identity of the scheduled closure, its own effect) the action issues
when executed.  Go actions are opaque closures; this models exactly their
interaction with the scheduler. -/
inductive Act where
  | mk : List (ℚ × ℕ × Act) → Act

/-- The schedule requests of an action. -/
def Act.subs : Act → List (ℚ × ℕ × Act)
  | .mk l => l

/-- An Event of engine/simulation.go: execution time plus the action, whose
closure identity is the id field. -/
structure Ev where
  time : ℚ
  eid : ℕ
  act : Act

/-- Simulation state: the virtual clock and the pending event slice. -/
structure SimState where
  now : ℚ
  events : List Ev

/-- The event slice is ordered by time: Go sort.Slice guarantees that no
later element is less than an earlier one under the comparator, which for
the time ordering is exactly pairwise ≤. -/
def TimeSorted (l : List Ev) : Prop :=
  l.Pairwise (fun e1 e2 => e1.time ≤ e2.time)

/-- The documented contract of sort.Slice with the less-by-Time comparator:
the output is a time-sorted permutation of the input.  sort.Slice is not
guaranteed to be stable, so every time-sorted permutation is a permitted
outcome. -/
def sortSlice (l l' : List Ev) : Prop := l.Perm l' ∧ TimeSorted l'

/-- Simulation.Schedule as a relation over the permitted sort.Slice
behaviors: append the event at time now + delay (no validation of the delay)
and re-sort the whole slice. -/
def scheduleR (s : SimState) (delay : ℚ) (i : ℕ) (a : Act)
    (s' : SimState) : Prop :=
  s'.now = s.now ∧ sortSlice (s.events ++ [⟨s.now + delay, i, a⟩]) s'.events

/-- Simulation.ScheduleAt: a silent early return leaves the state unchanged
when the absolute time lies in the past; otherwise append and re-sort. -/
def scheduleAtR (s : SimState) (t : ℚ) (i : ℕ) (a : Act)
    (s' : SimState) : Prop :=
  if t < s.now then s' = s
  else s'.now = s.now ∧ sortSlice (s.events ++ [⟨t, i, a⟩]) s'.events

/-- The Schedule calls an executing action issues, applied in order at the
current clock value. -/
inductive InsertList : ℚ → List (ℚ × ℕ × Act) → List Ev → List Ev → Prop where
  | nil (now : ℚ) (q : List Ev) : InsertList now [] q q
  | cons (now d : ℚ) (i : ℕ) (a : Act) (rest : List (ℚ × ℕ × Act))
      (q q1 q2 : List Ev) :
      sortSlice (q ++ [⟨now + d, i, a⟩]) q1 →
      InsertList now rest q1 q2 →
      InsertList now ((d, i, a) :: rest) q q2

/-- Simulation.Run(until) as a relation: while the head event is due, pop
it, advance now to its time, perform its Schedule calls, continue; stop on
an empty slice or a head event past the horizon.  The log lists the time and
action identity of each executed event in execution order. -/
inductive RunR : ℚ → SimState → List (ℚ × ℕ) → SimState → Prop where
  | done (u : ℚ) (s : SimState) : s.events = [] → RunR u s [] s
  | past (u : ℚ) (s : SimState) (e : Ev) (rest : List Ev) :
      s.events = e :: rest → u < e.time → RunR u s [] s
  | step (u : ℚ) (s : SimState) (e : Ev) (rest q' : List Ev)
      (log : List (ℚ × ℕ)) (s' : SimState) :
      s.events = e :: rest → e.time ≤ u →
      InsertList e.time e.act.subs rest q' →
      RunR u ⟨e.time, q'⟩ log s' →
      RunR u s ((e.time, e.eid) :: log) s'

/-- All delays an action would ever schedule are non-negative. -/
inductive ActDelaysNonneg : Act → Prop where
  | mk (l : List (ℚ × ℕ × Act)) :
      (∀ x, x ∈ l → 0 ≤ x.1) →
      (∀ x, x ∈ l → ActDelaysNonneg x.2.2) →
      ActDelaysNonneg (Act.mk l)

/-- PathTransition from network/delay_model.go. -/
structure PathTransition where
  time : ℚ
  baseDelay : ℚ
deriving DecidableEq, Repr

/-- DelayModel state from network/delay_model.go.  The random samplers are
not modelled; GetBaseDelay takes the would-be fresh sample as the fallback
argument, used only on the uninitialised or empty escape path. -/
structure DelayModel where
  baseDelayMin : ℚ
  baseDelayMax : ℚ
  transitionRate : ℚ
  legitMu : ℚ
  legitSigma : ℚ
  maliciousMin : ℚ
  maliciousMax : ℚ
  transitions : List PathTransition
  initialised : Bool

/-- The loop of Go sort.Search: binary search for the smallest index in
[i, j) satisfying f, returning j when none does.  Each iteration strictly
shrinks j - i, so fuel j - i suffices and the fuel never runs out. -/
def goSearchAux (f : ℕ → Bool) : ℕ → ℕ → ℕ → ℕ
  | 0, i, _ => i
  | fuel + 1, i, j =>
    if i < j then
      let h := (i + j) / 2
      if f h then goSearchAux f fuel i h else goSearchAux f fuel (h + 1) j
    else i

/-- Go sort.Search(n, f). -/
def goSearch (n : ℕ) (f : ℕ → Bool) : ℕ := goSearchAux f n 0 n

/-- DelayModel.GetBaseDelay: on the uninitialised or empty escape path
return a fresh uniform sample (the fallback); otherwise binary-search for
the first transition after t and return the base delay of the one before
it. -/
def DelayModel.getBaseDelay (dm : DelayModel) (fallback t : ℚ) : ℚ :=
  if dm.initialised = false ∨ dm.transitions = [] then fallback
  else
    let idx := goSearch dm.transitions.length
      (fun i => decide (t < (dm.transitions.getD i ⟨0, 0⟩).time))
    if idx = 0 then (dm.transitions.getD 0 ⟨0, 0⟩).baseDelay
    else (dm.transitions.getD (idx - 1) ⟨0, 0⟩).baseDelay

/-- A concrete initialised delay model used by the C9 witness. -/
def witnessDelayModel : DelayModel :=
  { baseDelayMin := 1/50, baseDelayMax := 2/25, transitionRate := 1/20,
    legitMu := -23/5, legitSigma := 4/5, maliciousMin := 1/10,
    maliciousMax := 1/5,
    transitions := [⟨0, 5⟩, ⟨10, 7⟩], initialised := true }

/-- QueryResult from the Bayesian tracker source. -/
structure QueryResult where
  queryID : ℤ
  suspicion : ℝ
  contradiction : Bool
  pHonestAfter : ℝ

/-- BayesianTracker state.  Suspicion and probabilities are float64 in Go
and real here because the update calls math.Exp. -/
structure BayesianTracker where
  priorHonest : ℝ
  currentPHonest : ℝ
  queryHistory : List QueryResult
  lambdaHonest : ℝ
  lambdaDishonest : ℝ

/-- NewBayesianTracker. -/
noncomputable def newBayesianTracker (priorHonest : ℝ) : BayesianTracker :=
  { priorHonest := priorHonest, currentPHonest := priorHonest,
    queryHistory := [], lambdaHonest := 2, lambdaDishonest := 1/2 }

/-- BayesianTracker.Update: a contradiction zeroes the honesty belief;
otherwise Bayes with exponential likelihoods, skipping the renormalisation
when the weighted likelihood sum is not positive.  Go mutates and returns
the new belief; here the pair carries both. -/
noncomputable def BayesianTracker.update (bt : BayesianTracker)
    (queryID : ℤ) (suspicion : ℝ) (contradiction : Bool) :
    ℝ × BayesianTracker :=
  if contradiction then
    (0,
      { bt with
          currentPHonest := 0
          queryHistory := bt.queryHistory ++
            [⟨queryID, suspicion, contradiction, 0⟩] })
  else
    let pResultIfHonest :=
      bt.lambdaHonest * Real.exp (-bt.lambdaHonest * suspicion)
    let pLow := bt.lambdaHonest * Real.exp (-bt.lambdaHonest * suspicion)
    let pHigh :=
      bt.lambdaDishonest * Real.exp (-bt.lambdaDishonest * suspicion)
    let pResultIfDishonest := (1/2) * pLow + (1/2) * pHigh
    let pResult := pResultIfHonest * bt.currentPHonest +
      pResultIfDishonest * (1 - bt.currentPHonest)
    let newP := if 0 < pResult then
        pResultIfHonest * bt.currentPHonest / pResult
      else bt.currentPHonest
    (newP,
      { bt with
          currentPHonest := newP
          queryHistory := bt.queryHistory ++
            [⟨queryID, suspicion, contradiction, newP⟩] })

/-- A sequence of Update calls applied in order. -/
noncomputable def runUpdates (bt : BayesianTracker) :
    List (ℤ × ℝ × Bool) → BayesianTracker
  | [] => bt
  | u :: us => runUpdates (bt.update u.1 u.2.1 u.2.2).2 us

/-- Decision field of the SPRT; the Go strings are the empty string,
REJECT_H0 and ACCEPT_H0. -/
inductive SPRTDecision where
  | undecided
  | rejectH0
  | acceptH0
deriving DecidableEq, Repr

/-- SPRTTest state. -/
structure SPRTTest where
  alpha : ℝ
  beta : ℝ
  thetaDishonest : ℝ
  A : ℝ
  B : ℝ
  logLR : ℝ
  nQueries : ℤ
  decision : SPRTDecision

/-- NewSPRTTest: boundaries A = (1-beta)/alpha and B = beta/(1-alpha). -/
noncomputable def newSPRTTest (alpha beta thetaDishonest : ℝ) : SPRTTest :=
  { alpha := alpha, beta := beta, thetaDishonest := thetaDishonest,
    A := (1 - beta) / alpha, B := beta / (1 - alpha),
    logLR := 0, nQueries := 0, decision := .undecided }

/-- SPRTTest.Update: a query not involving a believed-suspicious packet
leaves the state unchanged; otherwise the log likelihood ratio moves by
log(p1/p0) or log((1-p1)/(1-p0)) with p0 = 0.05 and p1 = 0.40, and the
decision is re-derived from exp(logLR) against the boundaries, keeping the
previous decision strictly between them. -/
noncomputable def SPRTTest.update (s : SPRTTest)
    (involvesSuspiciousPacket observedSuspicious : Bool) :
    SPRTDecision × SPRTTest :=
  if involvesSuspiciousPacket = false then (s.decision, s)
  else
    let p0 : ℝ := 1/20
    let p1 : ℝ := 2/5
    let logLRIncrement := if observedSuspicious then Real.log (p1 / p0)
      else Real.log ((1 - p1) / (1 - p0))
    let logLR := s.logLR + logLRIncrement
    let n := s.nQueries + 1
    let lr := Real.exp logLR
    let dec := if s.A ≤ lr then SPRTDecision.rejectH0
      else if lr ≤ s.B then SPRTDecision.acceptH0 else s.decision
    (dec, { s with logLR := logLR, nQueries := n, decision := dec })

/-- ProbabilityModel of the single-query detection estimate; only carried,
never read, by ProcessResult. -/
structure ProbabilityModel where
  numLiedPackets : ℤ
  totalPackets : ℤ
  pInconsistent : ℝ

/-- ConfidenceTracker state. -/
structure ConfidenceTracker where
  bayesian : BayesianTracker
  sprt : SPRTTest
  probModel : ProbabilityModel
  contradictionsFound : ℤ
  queriesExecuted : ℤ

/-- ConfidenceTracker.ProcessResult: count the query and any contradiction,
update the Bayesian tracker, and update the SPRT with the suspicious
observation derived as suspicion exceeding 0.3. -/
noncomputable def ConfidenceTracker.processResult (ct : ConfidenceTracker)
    (queryID : ℤ) (suspicion : ℝ) (contradiction involvesSuspicious : Bool) :
    ConfidenceTracker :=
  { ct with
    queriesExecuted := ct.queriesExecuted + 1,
    contradictionsFound := if contradiction then ct.contradictionsFound + 1
      else ct.contradictionsFound,
    bayesian := (ct.bayesian.update queryID suspicion contradiction).2,
    sprt := (ct.sprt.update involvesSuspicious
      (if (3:ℝ)/10 < suspicion then true else false)).2 }

/-- A concrete confidence tracker used by the C6 witness. -/
noncomputable def witnessConfidenceTracker : ConfidenceTracker :=
  { bayesian := newBayesianTracker (1/2),
    sprt := newSPRTTest (1/20) (1/10) (2/5),
    probModel := ⟨2, 10, 3/10⟩,
    contradictionsFound := 0, queriesExecuted := 0 }

lemma histLookup_cons_ne (k k' : ℤ × ℤ) (v : ComparisonResult)
    (h : List ((ℤ × ℤ) × ComparisonResult)) (hne : k' ≠ k) :
    histLookup k ((k', v) :: h) = histLookup k h := by
  simp [histLookup, hne]

lemma histLookup_cons_eq (k : ℤ × ℤ) (v : ComparisonResult)
    (h : List ((ℤ × ℤ) × ComparisonResult)) :
    histLookup k ((k, v) :: h) = some v := by
  simp [histLookup]

lemma reverseComparison_involutive (c : ComparisonResult) :
    reverseComparison (reverseComparison c) = c := by
  cases c <;> rfl

/-- The query counter bump touches no field that the comparison logic reads. -/
@[simp] lemma bumpQueries_findRecordByID (o : StrategicOracle) (x : ℤ) :
    o.bumpQueries.findRecordByID x = o.findRecordByID x := rfl

@[simp] lemma bumpQueries_comparisonHistory (o : StrategicOracle) :
    o.bumpQueries.comparisonHistory = o.comparisonHistory := rfl

@[simp] lemma bumpQueries_groundTruth (o : StrategicOracle) :
    o.bumpQueries.groundTruth = o.groundTruth := rfl

@[simp] lemma bumpQueries_flaggedPackets (o : StrategicOracle) :
    o.bumpQueries.flaggedPackets = o.flaggedPackets := rfl

@[simp] lemma bumpQueries_answeringStrat (o : StrategicOracle) :
    o.bumpQueries.answeringStrat = o.answeringStrat := rfl

@[simp] lemma bumpQueries_claimedMinDelays (o : StrategicOracle) :
    o.bumpQueries.claimedMinDelays = o.claimedMinDelays := rfl

lemma answerComparisonAux_missing (o : StrategicOracle) (a b : ℤ)
    (h : o.findRecordByID a = none ∨ o.findRecordByID b = none) :
    o.answerComparisonAux a b = (.packetsEqual, o) := by
  unfold StrategicOracle.answerComparisonAux
  rcases h with h | h
  · rw [h]
  · rw [h]
    cases o.findRecordByID a <;> rfl

lemma answerComparisonAux_hit (o : StrategicOracle) (a b : ℤ)
    (r1 r2 : TransmissionRecord) (v : ComparisonResult)
    (h1 : o.findRecordByID a = some r1) (h2 : o.findRecordByID b = some r2)
    (hm : histLookup (a, b) o.comparisonHistory = some v) :
    o.answerComparisonAux a b = (v, o) := by
  unfold StrategicOracle.answerComparisonAux
  rw [h1, h2]
  simp only [hm]

lemma answerComparisonAux_revhit (o : StrategicOracle) (a b : ℤ)
    (r1 r2 : TransmissionRecord) (v : ComparisonResult)
    (h1 : o.findRecordByID a = some r1) (h2 : o.findRecordByID b = some r2)
    (hm : histLookup (a, b) o.comparisonHistory = none)
    (hm2 : histLookup (b, a) o.comparisonHistory = some v) :
    o.answerComparisonAux a b = (reverseComparison v, o) := by
  unfold StrategicOracle.answerComparisonAux
  rw [h1, h2]
  simp only [hm, hm2]

@[simp] lemma answerRandom_groundTruth (o : StrategicOracle) :
    o.answerRandom.2.groundTruth = o.groundTruth := rfl

@[simp] lemma answerRandom_flaggedPackets (o : StrategicOracle) :
    o.answerRandom.2.flaggedPackets = o.flaggedPackets := rfl

@[simp] lemma answerRandom_answeringStrat (o : StrategicOracle) :
    o.answerRandom.2.answeringStrat = o.answeringStrat := rfl

@[simp] lemma answerRandom_comparisonHistory (o : StrategicOracle) :
    o.answerRandom.2.comparisonHistory = o.comparisonHistory := rfl

@[simp] lemma answerRandom_claimedMinDelays (o : StrategicOracle) :
    o.answerRandom.2.claimedMinDelays = o.claimedMinDelays := rfl

lemma answerConsistent_preserves (o : StrategicOracle)
    (r1 r2 : TransmissionRecord) :
    (o.answerConsistent r1 r2).2.groundTruth = o.groundTruth ∧
    (o.answerConsistent r1 r2).2.flaggedPackets = o.flaggedPackets ∧
    (o.answerConsistent r1 r2).2.answeringStrat = o.answeringStrat ∧
    (o.answerConsistent r1 r2).2.comparisonHistory = o.comparisonHistory := by
  unfold StrategicOracle.answerConsistent
  cases hc1 : claimLookup r1.packetID o.claimedMinDelays <;>
    cases hc2 : claimLookup r2.packetID o.claimedMinDelays <;>
    exact ⟨rfl, rfl, rfl, rfl⟩

@[simp] lemma recordLie_groundTruth (o : StrategicOracle)
    (t a : ComparisonResult) : (o.recordLie t a).groundTruth = o.groundTruth := by
  unfold StrategicOracle.recordLie; split <;> rfl

@[simp] lemma recordLie_flaggedPackets (o : StrategicOracle)
    (t a : ComparisonResult) :
    (o.recordLie t a).flaggedPackets = o.flaggedPackets := by
  unfold StrategicOracle.recordLie; split <;> rfl

@[simp] lemma recordLie_answeringStrat (o : StrategicOracle)
    (t a : ComparisonResult) :
    (o.recordLie t a).answeringStrat = o.answeringStrat := by
  unfold StrategicOracle.recordLie; split <;> rfl

@[simp] lemma recordLie_comparisonHistory (o : StrategicOracle)
    (t a : ComparisonResult) :
    (o.recordLie t a).comparisonHistory = o.comparisonHistory := by
  unfold StrategicOracle.recordLie; split <;> rfl

@[simp] lemma recordLie_claimedMinDelays (o : StrategicOracle)
    (t a : ComparisonResult) :
    (o.recordLie t a).claimedMinDelays = o.claimedMinDelays := by
  unfold StrategicOracle.recordLie; split <;> rfl

@[simp] lemma memoise_groundTruth (o : StrategicOracle) (k : ℤ × ℤ)
    (a : ComparisonResult) : (o.memoise k a).groundTruth = o.groundTruth := rfl

@[simp] lemma memoise_flaggedPackets (o : StrategicOracle) (k : ℤ × ℤ)
    (a : ComparisonResult) :
    (o.memoise k a).flaggedPackets = o.flaggedPackets := rfl

@[simp] lemma memoise_answeringStrat (o : StrategicOracle) (k : ℤ × ℤ)
    (a : ComparisonResult) :
    (o.memoise k a).answeringStrat = o.answeringStrat := rfl

@[simp] lemma memoise_comparisonHistory (o : StrategicOracle) (k : ℤ × ℤ)
    (a : ComparisonResult) :
    (o.memoise k a).comparisonHistory = (k, a) :: o.comparisonHistory := rfl

@[simp] lemma memoise_claimedMinDelays (o : StrategicOracle) (k : ℤ × ℤ)
    (a : ComparisonResult) :
    (o.memoise k a).claimedMinDelays = o.claimedMinDelays := rfl

lemma strategyAnswer_preserves (o : StrategicOracle)
    (r1 r2 : TransmissionRecord) :
    (o.strategyAnswer r1 r2).2.groundTruth = o.groundTruth ∧
    (o.strategyAnswer r1 r2).2.flaggedPackets = o.flaggedPackets ∧
    (o.strategyAnswer r1 r2).2.answeringStrat = o.answeringStrat ∧
    (o.strategyAnswer r1 r2).2.comparisonHistory = o.comparisonHistory := by
  unfold StrategicOracle.strategyAnswer
  cases h : o.answeringStrat
  · exact ⟨rfl, rfl, h, rfl⟩
  · exact ⟨rfl, rfl, h, rfl⟩
  · exact ⟨rfl, rfl, h, rfl⟩
  · exact ⟨(answerConsistent_preserves o r1 r2).1,
      (answerConsistent_preserves o r1 r2).2.1,
      ((answerConsistent_preserves o r1 r2).2.2.1).trans h,
      (answerConsistent_preserves o r1 r2).2.2.2⟩

lemma answerComparisonAux_preserves (o : StrategicOracle) (a b : ℤ) :
    (o.answerComparisonAux a b).2.groundTruth = o.groundTruth ∧
    (o.answerComparisonAux a b).2.flaggedPackets = o.flaggedPackets ∧
    (o.answerComparisonAux a b).2.answeringStrat = o.answeringStrat := by
  unfold StrategicOracle.answerComparisonAux
  split
  case _ r1 r2 _ _ =>
    split
    · exact ⟨rfl, rfl, rfl⟩
    · split
      · exact ⟨rfl, rfl, rfl⟩
      · simp [(strategyAnswer_preserves o r1 r2).1,
          (strategyAnswer_preserves o r1 r2).2.1,
          (strategyAnswer_preserves o r1 r2).2.2.1]
  · exact ⟨rfl, rfl, rfl⟩

lemma answerComparison_preserves (o : StrategicOracle) (a b : ℤ) :
    ((o.answerComparison a b).2.groundTruth = o.groundTruth ∧
     (o.answerComparison a b).2.flaggedPackets = o.flaggedPackets ∧
     (o.answerComparison a b).2.answeringStrat = o.answeringStrat) := by
  have h := answerComparisonAux_preserves o.bumpQueries a b
  simpa [StrategicOracle.answerComparison] using h

lemma runComparisons_preserves (o : StrategicOracle) (qs : List (ℤ × ℤ)) :
    ((runComparisons o qs).groundTruth = o.groundTruth ∧
     (runComparisons o qs).flaggedPackets = o.flaggedPackets ∧
     (runComparisons o qs).answeringStrat = o.answeringStrat) := by
  induction qs generalizing o with
  | nil => exact ⟨rfl, rfl, rfl⟩
  | cons q qs ih =>
    have h1 := answerComparison_preserves o q.1 q.2
    have h2 := ih (o.answerComparison q.1 q.2).2
    exact ⟨h2.1.trans h1.1, h2.2.1.trans h1.2.1, h2.2.2.trans h1.2.2⟩

lemma memoAnswer_establish (o : StrategicOracle) (a b : ℤ)
    (r1 r2 : TransmissionRecord)
    (h1 : o.findRecordByID a = some r1) (h2 : o.findRecordByID b = some r2) :
    memoAnswer (o.answerComparison a b).2 a b =
      some (o.answerComparison a b).1 := by
  show memoAnswer (o.bumpQueries.answerComparisonAux a b).2 a b =
    some (o.bumpQueries.answerComparisonAux a b).1
  have h1' : o.bumpQueries.findRecordByID a = some r1 := h1
  have h2' : o.bumpQueries.findRecordByID b = some r2 := h2
  set p := o.bumpQueries with hp
  cases hm : histLookup (a, b) p.comparisonHistory with
  | some v =>
    rw [answerComparisonAux_hit p a b r1 r2 v h1' h2' hm]
    simp [memoAnswer, hm]
  | none =>
    cases hm2 : histLookup (b, a) p.comparisonHistory with
    | some v =>
      rw [answerComparisonAux_revhit p a b r1 r2 v h1' h2' hm hm2]
      simp [memoAnswer, hm, hm2]
    | none =>
      unfold StrategicOracle.answerComparisonAux
      rw [h1', h2']
      simp only [hm, hm2]
      simp [memoAnswer, histLookup]

lemma memoAnswer_preserved (o : StrategicOracle) (c d a b : ℤ)
    (v : ComparisonResult) (hv : memoAnswer o a b = some v) :
    memoAnswer (o.answerComparison c d).2 a b = some v := by
  show memoAnswer (o.bumpQueries.answerComparisonAux c d).2 a b = some v
  have hv' : memoAnswer o.bumpQueries a b = some v := hv
  set p := o.bumpQueries with hp
  cases hfc : p.findRecordByID c with
  | none => rw [answerComparisonAux_missing p c d (Or.inl hfc)]; exact hv'
  | some rc =>
  cases hfd : p.findRecordByID d with
  | none => rw [answerComparisonAux_missing p c d (Or.inr hfd)]; exact hv'
  | some rd =>
  cases hm : histLookup (c, d) p.comparisonHistory with
  | some w => rw [answerComparisonAux_hit p c d rc rd w hfc hfd hm]; exact hv'
  | none =>
  cases hm2 : histLookup (d, c) p.comparisonHistory with
  | some w =>
    rw [answerComparisonAux_revhit p c d rc rd w hfc hfd hm hm2]; exact hv'
  | none =>
    have hnone : ∀ x y : ℤ, histLookup (x, y) p.comparisonHistory = none →
        histLookup (y, x) p.comparisonHistory = none →
        memoAnswer p x y = none := by
      intro x y hx hy
      simp [memoAnswer, hx, hy]
    have hne1 : (c, d) ≠ (a, b) := by
      intro h
      have hba : histLookup (b, a) p.comparisonHistory = none := by
        have hdc : (d, c) = (b, a) := by
          injection h with h3 h4; rw [h3, h4]
        exact hdc ▸ hm2
      rw [hnone a b (h ▸ hm) hba] at hv'
      exact Option.noConfusion hv'
    have hne2 : (c, d) ≠ (b, a) := by
      intro h
      have hab : histLookup (a, b) p.comparisonHistory = none := by
        have hdc : (d, c) = (a, b) := by
          injection h with h3 h4; rw [h3, h4]
        exact hdc ▸ hm2
      rw [hnone a b hab (h ▸ hm)] at hv'
      exact Option.noConfusion hv'
    unfold StrategicOracle.answerComparisonAux
    rw [hfc, hfd]
    simp only [hm, hm2]
    unfold memoAnswer at hv' ⊢
    simp only [memoise_comparisonHistory, recordLie_comparisonHistory,
      (strategyAnswer_preserves p rc rd).2.2.2,
      histLookup_cons_ne _ _ _ _ hne1, histLookup_cons_ne _ _ _ _ hne2]
    exact hv'

lemma mirrorFree_preserved (o : StrategicOracle) (c d : ℤ)
    (h : MirrorFree o.comparisonHistory) :
    MirrorFree (o.answerComparison c d).2.comparisonHistory := by
  show MirrorFree (o.bumpQueries.answerComparisonAux c d).2.comparisonHistory
  have h' : MirrorFree o.bumpQueries.comparisonHistory := h
  set p := o.bumpQueries with hp
  cases hfc : p.findRecordByID c with
  | none => rw [answerComparisonAux_missing p c d (Or.inl hfc)]; exact h'
  | some rc =>
  cases hfd : p.findRecordByID d with
  | none => rw [answerComparisonAux_missing p c d (Or.inr hfd)]; exact h'
  | some rd =>
  cases hm : histLookup (c, d) p.comparisonHistory with
  | some w => rw [answerComparisonAux_hit p c d rc rd w hfc hfd hm]; exact h'
  | none =>
  cases hm2 : histLookup (d, c) p.comparisonHistory with
  | some w =>
    rw [answerComparisonAux_revhit p c d rc rd w hfc hfd hm hm2]; exact h'
  | none =>
    unfold StrategicOracle.answerComparisonAux
    rw [hfc, hfd]
    simp only [hm, hm2]
    intro x y hxy
    simp only [memoise_comparisonHistory, recordLie_comparisonHistory,
      (strategyAnswer_preserves p rc rd).2.2.2]
    by_cases hx : (c, d) = (x, y)
    · right
      have hcd : c ≠ d := by
        intro hcc
        injection hx with e1 e2
        exact hxy ((e1.symm.trans (hcc.trans e2)))
      have hne : (c, d) ≠ (y, x) := by
        intro hcon
        injection hx with e1 e2
        injection hcon with e3 e4
        exact hxy (e1.symm.trans e3)
      rw [histLookup_cons_ne _ _ _ _ hne]
      have hdc : (d, c) = (y, x) := by
        injection hx with e1 e2; rw [e1, e2]
      exact hdc ▸ hm2
    · by_cases hy : (c, d) = (y, x)
      · left
        rw [histLookup_cons_ne _ _ _ _ hx]
        have hdc : (d, c) = (x, y) := by
          injection hy with e1 e2; rw [e1, e2]
        exact hdc ▸ hm2
      · rcases h' x y hxy with hl | hl
        · left
          rw [histLookup_cons_ne _ _ _ _ hx]
          exact hl
        · right
          rw [histLookup_cons_ne _ _ _ _ hy]
          exact hl

lemma findRecordByID_congr (o o' : StrategicOracle) (x : ℤ)
    (h : o.groundTruth = o'.groundTruth) :
    o.findRecordByID x = o'.findRecordByID x := by
  unfold StrategicOracle.findRecordByID
  rw [h]

lemma answerComparison_from_memo (o : StrategicOracle) (a b : ℤ)
    (r1 r2 : TransmissionRecord) (v : ComparisonResult)
    (hmf : MirrorFree o.comparisonHistory) (hab : a ≠ b)
    (h1 : o.findRecordByID a = some r1) (h2 : o.findRecordByID b = some r2)
    (hv : memoAnswer o a b = some v) :
    (o.answerComparison a b).1 = v ∧
    (o.answerComparison b a).1 = reverseComparison v := by
  have h1' : o.bumpQueries.findRecordByID a = some r1 := h1
  have h2' : o.bumpQueries.findRecordByID b = some r2 := h2
  constructor
  · show (o.bumpQueries.answerComparisonAux a b).1 = v
    cases hm : histLookup (a, b) o.comparisonHistory with
    | some w =>
      have hw : w = v := by simpa [memoAnswer, hm] using hv
      rw [answerComparisonAux_hit o.bumpQueries a b r1 r2 w h1' h2' hm]
      exact hw
    | none =>
      rcases hw2 : histLookup (b, a) o.comparisonHistory with _ | w
      · exfalso
        have : memoAnswer o a b = none := by simp [memoAnswer, hm, hw2]
        rw [this] at hv
        exact Option.noConfusion hv
      · have hw : reverseComparison w = v := by
          simpa [memoAnswer, hm, hw2] using hv
        rw [answerComparisonAux_revhit o.bumpQueries a b r1 r2 w h1' h2' hm hw2]
        exact hw
  · show (o.bumpQueries.answerComparisonAux b a).1 = reverseComparison v
    cases hm : histLookup (b, a) o.comparisonHistory with
    | some w =>
      have hab' : histLookup (a, b) o.comparisonHistory = none := by
        rcases hmf a b hab with hl | hl
        · exact hl
        · rw [hl] at hm; exact Option.noConfusion hm
      have hw : reverseComparison w = v := by
        simpa [memoAnswer, hab', hm] using hv
      rw [answerComparisonAux_hit o.bumpQueries b a r2 r1 w h2' h1' hm]
      rw [← hw, reverseComparison_involutive]
    | none =>
      rcases hw2 : histLookup (a, b) o.comparisonHistory with _ | w
      · exfalso
        have : memoAnswer o a b = none := by simp [memoAnswer, hw2, hm]
        rw [this] at hv
        exact Option.noConfusion hv
      · have hw : w = v := by simpa [memoAnswer, hw2] using hv
        rw [answerComparisonAux_revhit o.bumpQueries b a r2 r1 w h2' h1' hm hw2]
        rw [hw]

lemma runComparisons_memo (o : StrategicOracle) (qs : List (ℤ × ℤ))
    (a b : ℤ) (v : ComparisonResult) (hv : memoAnswer o a b = some v) :
    memoAnswer (runComparisons o qs) a b = some v := by
  induction qs generalizing o with
  | nil => exact hv
  | cons q qs ih =>
    exact ih _ (memoAnswer_preserved o q.1 q.2 a b v hv)

lemma runComparisons_mirrorFree (o : StrategicOracle) (qs : List (ℤ × ℤ))
    (h : MirrorFree o.comparisonHistory) :
    MirrorFree (runComparisons o qs).comparisonHistory := by
  induction qs generalizing o with
  | nil => exact h
  | cons q qs ih =>
    exact ih _ (mirrorFree_preserved o q.1 q.2 h)

/-- Claim C1: for every trial of the strategic oracle (any answering
strategy, any RNG stream, any flagging) and every pair of distinct packet
ids a and b both present in the ground truth, once Compare(a, b) has been
answered, every later repeat of Compare(a, b) (after arbitrary further
comparison queries) returns the same answer, and every later Compare(b, a)
returns the swapped answer. -/
theorem claim_C1_oracle_repeat_and_swap_consistency
    (o0 : StrategicOracle) (hfresh : o0.comparisonHistory = [])
    (qs1 : List (ℤ × ℤ)) (a b : ℤ) (hab : a ≠ b)
    (r1 r2 : TransmissionRecord)
    (h1 : (runComparisons o0 qs1).findRecordByID a = some r1)
    (h2 : (runComparisons o0 qs1).findRecordByID b = some r2)
    (qs2 : List (ℤ × ℤ)) :
    ((runComparisons ((runComparisons o0 qs1).answerComparison a b).2
        qs2).answerComparison a b).1 =
      ((runComparisons o0 qs1).answerComparison a b).1 ∧
    ((runComparisons ((runComparisons o0 qs1).answerComparison a b).2
        qs2).answerComparison b a).1 =
      reverseComparison ((runComparisons o0 qs1).answerComparison a b).1 := by
  have hmf0 : MirrorFree o0.comparisonHistory := by
    rw [hfresh]
    intro x y hxy
    exact Or.inl rfl
  have hmf1 : MirrorFree (runComparisons o0 qs1).comparisonHistory :=
    runComparisons_mirrorFree o0 qs1 hmf0
  have hans := memoAnswer_establish (runComparisons o0 qs1) a b r1 r2 h1 h2
  have hmf2 : MirrorFree
      ((runComparisons o0 qs1).answerComparison a b).2.comparisonHistory :=
    mirrorFree_preserved (runComparisons o0 qs1) a b hmf1
  have hmf3 : MirrorFree (runComparisons
      ((runComparisons o0 qs1).answerComparison a b).2 qs2).comparisonHistory :=
    runComparisons_mirrorFree _ qs2 hmf2
  have hmem := runComparisons_memo _ qs2 a b _ hans
  have hgt1 : (runComparisons ((runComparisons o0 qs1).answerComparison a b).2
      qs2).groundTruth = (runComparisons o0 qs1).groundTruth := by
    rw [(runComparisons_preserves _ qs2).1,
      (answerComparison_preserves _ a b).1]
  have h1' := (findRecordByID_congr _ (runComparisons o0 qs1) a hgt1).trans h1
  have h2' := (findRecordByID_congr _ (runComparisons o0 qs1) b hgt1).trans h2
  exact answerComparison_from_memo _ a b r1 r2 _ hmf3 hab h1' h2' hmem

lemma claimLookup_cons_eq (i : ℤ) (v : ℚ) (l : List (ℤ × ℚ)) :
    claimLookup i ((i, v) :: l) = some v := by
  simp [claimLookup]

lemma claimLookup_cons_ne (i j : ℤ) (v : ℚ) (l : List (ℤ × ℚ)) (h : j ≠ i) :
    claimLookup i ((j, v) :: l) = claimLookup i l := by
  simp [claimLookup, h]

lemma isFlagged_congr (o o' : StrategicOracle) (x : ℤ)
    (h : o.flaggedPackets = o'.flaggedPackets) :
    o.isFlagged x = o'.isFlagged x := by
  unfold StrategicOracle.isFlagged
  rw [h]

lemma findRecordByID_id (o : StrategicOracle) (r : TransmissionRecord) (x : ℤ)
    (h : o.findRecordByID x = some r) : r.packetID = x := by
  have h2 := List.find?_some h
  simpa using h2

lemma cmpDelays_swap (x y : ℚ) :
    reverseComparison (cmpDelays x y) = cmpDelays y x := by
  unfold cmpDelays
  split_ifs with h1 h2 h3 <;>
    first
      | rfl
      | (exfalso; linarith)

lemma answerConsistent_spec (o0 o : StrategicOracle)
    (ra rb : TransmissionRecord)
    (hflag : o.flaggedPackets = o0.flaggedPackets)
    (hclaims : ∀ p v, claimLookup p o.claimedMinDelays = some v →
        ∃ r, o0.findRecordByID p = some r ∧ v = claimedValue o0 r)
    (hra : o0.findRecordByID ra.packetID = some ra)
    (hrb : o0.findRecordByID rb.packetID = some rb) :
    (o.answerConsistent ra rb).1 =
        cmpDelays (claimedValue o0 ra) (claimedValue o0 rb) ∧
    (∀ p v, claimLookup p (o.answerConsistent ra rb).2.claimedMinDelays = some v →
        ∃ r, o0.findRecordByID p = some r ∧ v = claimedValue o0 r) ∧
    claimLookup ra.packetID (o.answerConsistent ra rb).2.claimedMinDelays =
        some (claimedValue o0 ra) ∧
    claimLookup rb.packetID (o.answerConsistent ra rb).2.claimedMinDelays =
        some (claimedValue o0 rb) := by
  have hfl1 : o.isFlagged ra.packetID = o0.isFlagged ra.packetID :=
    isFlagged_congr o o0 ra.packetID hflag
  have hfl2 : o.isFlagged rb.packetID = o0.isFlagged rb.packetID :=
    isFlagged_congr o o0 rb.packetID hflag
  have hfla : (if o.isFlagged ra.packetID then ra.actualDelay * (9/10)
      else ra.minDelay) = claimedValue o0 ra := by
    rw [hfl1]; rfl
  have hflb : (if o.isFlagged rb.packetID then rb.actualDelay * (9/10)
      else rb.minDelay) = claimedValue o0 rb := by
    rw [hfl2]; rfl
  unfold StrategicOracle.answerConsistent
  cases hc1 : claimLookup ra.packetID o.claimedMinDelays with
  | some v1 =>
    have hv1 : v1 = claimedValue o0 ra := by
      obtain ⟨r, hr, hv⟩ := hclaims _ _ hc1
      rw [hra] at hr
      cases hr
      exact hv
    cases hc2 : claimLookup rb.packetID o.claimedMinDelays with
    | some v2 =>
      have hv2 : v2 = claimedValue o0 rb := by
        obtain ⟨r, hr, hv⟩ := hclaims _ _ hc2
        rw [hrb] at hr
        cases hr
        exact hv
      subst hv1; subst hv2
      exact ⟨rfl, hclaims, hc1, hc2⟩
    | none =>
      simp only [Option.getD_some, Option.getD_none, Option.isSome_some,
        Option.isSome_none, Bool.false_eq_true, eq_self_iff_true, if_true, if_false]
      subst hv1
      constructor
      · show cmpDelays (claimedValue o0 ra)
          (if o.isFlagged rb.packetID then rb.actualDelay * (9/10)
            else rb.minDelay) = _
        rw [hflb]
      · constructor
        · intro p v hp
          by_cases hpb : rb.packetID = p
          · subst hpb
            rw [claimLookup_cons_eq] at hp
            cases hp
            exact ⟨rb, hrb, hflb⟩
          · rw [claimLookup_cons_ne _ _ _ _ hpb] at hp
            exact hclaims _ _ hp
        · constructor
          · by_cases hpb : rb.packetID = ra.packetID
            · rw [hpb, claimLookup_cons_eq]
              have : ra = rb := by
                rw [← hpb] at hra
                rw [hra] at hrb
                cases hrb
                rfl
              rw [this, hflb]
            · rw [claimLookup_cons_ne _ _ _ _ hpb]
              exact hc1
          · rw [claimLookup_cons_eq, hflb]
  | none =>
    cases hc2 : claimLookup rb.packetID o.claimedMinDelays with
    | some v2 =>
      have hv2 : v2 = claimedValue o0 rb := by
        obtain ⟨r, hr, hv⟩ := hclaims _ _ hc2
        rw [hrb] at hr
        cases hr
        exact hv
      simp only [Option.getD_some, Option.getD_none, Option.isSome_some,
        Option.isSome_none, Bool.false_eq_true, eq_self_iff_true, if_true, if_false]
      subst hv2
      constructor
      · show cmpDelays
          (if o.isFlagged ra.packetID then ra.actualDelay * (9/10)
            else ra.minDelay) (claimedValue o0 rb) = _
        rw [hfla]
      · constructor
        · intro p v hp
          by_cases hpa : ra.packetID = p
          · subst hpa
            rw [claimLookup_cons_eq] at hp
            cases hp
            exact ⟨ra, hra, hfla⟩
          · rw [claimLookup_cons_ne _ _ _ _ hpa] at hp
            exact hclaims _ _ hp
        · constructor
          · rw [claimLookup_cons_eq, hfla]
          · by_cases hpa : ra.packetID = rb.packetID
            · rw [hpa, claimLookup_cons_eq]
              have : rb = ra := by
                rw [← hpa] at hrb
                rw [hrb] at hra
                cases hra
                rfl
              rw [this, hfla]
            · rw [claimLookup_cons_ne _ _ _ _ hpa]
              exact hc2
    | none =>
      simp only [Option.getD_some, Option.getD_none, Option.isSome_some,
        Option.isSome_none, Bool.false_eq_true, eq_self_iff_true, if_true, if_false]
      constructor
      · show cmpDelays
          (if o.isFlagged ra.packetID then ra.actualDelay * (9/10)
            else ra.minDelay)
          (if o.isFlagged rb.packetID then rb.actualDelay * (9/10)
            else rb.minDelay) = _
        rw [hfla, hflb]
      · constructor
        · intro p v hp
          by_cases hpb : rb.packetID = p
          · subst hpb
            rw [claimLookup_cons_eq] at hp
            cases hp
            exact ⟨rb, hrb, hflb⟩
          · rw [claimLookup_cons_ne _ _ _ _ hpb] at hp
            by_cases hpa : ra.packetID = p
            · subst hpa
              rw [claimLookup_cons_eq] at hp
              cases hp
              exact ⟨ra, hra, hfla⟩
            · rw [claimLookup_cons_ne _ _ _ _ hpa] at hp
              exact hclaims _ _ hp
        · constructor
          · by_cases hpb : rb.packetID = ra.packetID
            · rw [hpb, claimLookup_cons_eq]
              have : ra = rb := by
                rw [← hpb] at hra
                rw [hra] at hrb
                cases hrb
                rfl
              rw [this, hflb]
            · rw [claimLookup_cons_ne _ _ _ _ hpb, claimLookup_cons_eq, hfla]
          · rw [claimLookup_cons_eq, hflb]

lemma strategyAnswer_of_consistent (o : StrategicOracle)
    (r1 r2 : TransmissionRecord) (h : o.answeringStrat = .answerConsistent) :
    o.strategyAnswer r1 r2 = o.answerConsistent r1 r2 := by
  unfold StrategicOracle.strategyAnswer
  rw [h]

lemma consistent_step (o0 o : StrategicOracle) (a b : ℤ)
    (hInv : ConsistentInv o0 o) :
    ConsistentInv o0 (o.answerComparison a b).2 ∧
    (∀ ra rb, o0.findRecordByID a = some ra → o0.findRecordByID b = some rb →
      (o.answerComparison a b).1 =
        cmpDelays (claimedValue o0 ra) (claimedValue o0 rb)) := by
  obtain ⟨hstrat, hgt, hflag, hclaims, hhist⟩ := hInv
  have hfind : ∀ x, o.bumpQueries.findRecordByID x = o0.findRecordByID x := by
    intro x
    exact findRecordByID_congr o o0 x hgt
  have hInvP : ConsistentInv o0 o.bumpQueries :=
    ⟨hstrat, hgt, hflag, hclaims, hhist⟩
  show ConsistentInv o0 (o.bumpQueries.answerComparisonAux a b).2 ∧
    (∀ ra rb, o0.findRecordByID a = some ra → o0.findRecordByID b = some rb →
      (o.bumpQueries.answerComparisonAux a b).1 =
        cmpDelays (claimedValue o0 ra) (claimedValue o0 rb))
  set p := o.bumpQueries with hp
  cases hfa : p.findRecordByID a with
  | none =>
    rw [answerComparisonAux_missing p a b (Or.inl hfa)]
    refine ⟨hInvP, ?_⟩
    intro ra rb h1 h2
    rw [← hfind a] at h1
    rw [hfa] at h1
    exact Option.noConfusion h1
  | some rec1 =>
  cases hfb : p.findRecordByID b with
  | none =>
    rw [answerComparisonAux_missing p a b (Or.inr hfb)]
    refine ⟨hInvP, ?_⟩
    intro ra rb h1 h2
    rw [← hfind b] at h2
    rw [hfb] at h2
    exact Option.noConfusion h2
  | some rec2 =>
  cases hm : histLookup (a, b) p.comparisonHistory with
  | some v =>
    rw [answerComparisonAux_hit p a b rec1 rec2 v hfa hfb hm]
    refine ⟨hInvP, ?_⟩
    intro ra rb h1 h2
    obtain ⟨ra', rb', ha', hb', hv⟩ := hhist a b v hm
    rw [h1] at ha'
    rw [h2] at hb'
    cases ha'
    cases hb'
    exact hv
  | none =>
  cases hm2 : histLookup (b, a) p.comparisonHistory with
  | some w =>
    rw [answerComparisonAux_revhit p a b rec1 rec2 w hfa hfb hm hm2]
    refine ⟨hInvP, ?_⟩
    intro ra rb h1 h2
    obtain ⟨rb', ra', hb', ha', hw⟩ := hhist b a w hm2
    rw [h1] at ha'
    rw [h2] at hb'
    cases ha'
    cases hb'
    rw [hw, cmpDelays_swap]
  | none =>
    have hra0 : o0.findRecordByID a = some rec1 := by rw [← hfind a]; exact hfa
    have hrb0 : o0.findRecordByID b = some rec2 := by rw [← hfind b]; exact hfb
    have hida : rec1.packetID = a := findRecordByID_id o0 rec1 a hra0
    have hidb : rec2.packetID = b := findRecordByID_id o0 rec2 b hrb0
    have hra : o0.findRecordByID rec1.packetID = some rec1 := by
      rw [hida]; exact hra0
    have hrb : o0.findRecordByID rec2.packetID = some rec2 := by
      rw [hidb]; exact hrb0
    have hspec := answerConsistent_spec o0 p rec1 rec2 hflag hclaims hra hrb
    unfold StrategicOracle.answerComparisonAux
    rw [hfa, hfb]
    simp only [hm, hm2]
    rw [strategyAnswer_of_consistent p rec1 rec2 hstrat]
    constructor
    · refine ⟨?_, ?_, ?_, ?_, ?_⟩
      · simp only [memoise_answeringStrat, recordLie_answeringStrat]
        exact ((answerConsistent_preserves p rec1 rec2).2.2.1).trans hstrat
      · simp only [memoise_groundTruth, recordLie_groundTruth]
        exact ((answerConsistent_preserves p rec1 rec2).1).trans hgt
      · simp only [memoise_flaggedPackets, recordLie_flaggedPackets]
        exact ((answerConsistent_preserves p rec1 rec2).2.1).trans hflag
      · simp only [memoise_claimedMinDelays, recordLie_claimedMinDelays]
        exact hspec.2.1
      · intro x y v hxy
        simp only [memoise_comparisonHistory, recordLie_comparisonHistory,
          (answerConsistent_preserves p rec1 rec2).2.2.2] at hxy
        by_cases hk : (a, b) = (x, y)
        · injection hk with e1 e2
          subst e1
          subst e2
          rw [histLookup_cons_eq] at hxy
          cases hxy
          exact ⟨rec1, rec2, hra0, hrb0, hspec.1⟩
        · rw [histLookup_cons_ne _ _ _ _ hk] at hxy
          exact hhist x y v hxy
    · intro ra rb h1 h2
      rw [hra0] at h1
      rw [hrb0] at h2
      cases h1
      cases h2
      exact hspec.1

lemma consistent_run (o0 : StrategicOracle) (qs : List (ℤ × ℤ))
    (o : StrategicOracle) (hInv : ConsistentInv o0 o) :
    ConsistentInv o0 (runComparisons o qs) := by
  induction qs generalizing o with
  | nil => exact hInv
  | cons q qs ih => exact ih _ (consistent_step o0 o q.1 q.2 hInv).1

/-- Claim C3: under the Consistent strategy, starting from a fresh trial
state, after any sequence of comparison queries every stored claimed minimum
is exactly the canonical value fixed by the flag bit (observed total times
0.9 when flagged, the true minimum otherwise) of the record it belongs to,
so a claim once set is never modified, and every comparison answer,
including the first, equals the 0.001-tolerance comparison of the two
frozen claimed minimums. -/
theorem claim_C3_consistent_claims_frozen
    (o0 : StrategicOracle) (hstrat : o0.answeringStrat = .answerConsistent)
    (hh : o0.comparisonHistory = []) (hc : o0.claimedMinDelays = [])
    (qs : List (ℤ × ℤ)) :
    (∀ p v, claimLookup p (runComparisons o0 qs).claimedMinDelays = some v →
       ∃ r, o0.findRecordByID p = some r ∧ v = claimedValue o0 r) ∧
    (∀ a b ra rb, o0.findRecordByID a = some ra →
       o0.findRecordByID b = some rb →
       ((runComparisons o0 qs).answerComparison a b).1 =
         cmpDelays (claimedValue o0 ra) (claimedValue o0 rb)) := by
  have hInv0 : ConsistentInv o0 o0 := by
    refine ⟨hstrat, rfl, rfl, ?_, ?_⟩
    · intro p v hp
      rw [hc] at hp
      exact Option.noConfusion hp
    · intro x y v hv
      rw [hh] at hv
      exact Option.noConfusion hv
  have hInv := consistent_run o0 qs o0 hInv0
  refine ⟨hInv.2.2.2.1, ?_⟩
  intro a b ra rb h1 h2
  exact (consistent_step o0 _ a b hInv).2 ra rb h1 h2

/-- Witness for claim C1 at a concrete trial. -/
theorem claim_C1_witness :
    (witnessOracle.comparisonHistory = [] ∧ (1 : ℤ) ≠ 2 ∧
     (runComparisons witnessOracle []).findRecordByID 1 = some witnessRecord1 ∧
     (runComparisons witnessOracle []).findRecordByID 2 = some witnessRecord2) ∧
    (((runComparisons ((runComparisons witnessOracle []).answerComparison 1 2).2
        []).answerComparison 1 2).1 =
      ((runComparisons witnessOracle []).answerComparison 1 2).1 ∧
     ((runComparisons ((runComparisons witnessOracle []).answerComparison 1 2).2
        []).answerComparison 2 1).1 =
      reverseComparison
        ((runComparisons witnessOracle []).answerComparison 1 2).1) :=
  ⟨⟨rfl, by decide, by decide, by decide⟩,
   claim_C1_oracle_repeat_and_swap_consistency witnessOracle rfl [] 1 2
     (by decide) witnessRecord1 witnessRecord2 (by decide) (by decide) []⟩

lemma addComparison_state (tc : TransitivityChecker) (f s q : ℤ) :
    (tc.addComparison f s q).2 =
      { graph := if (f, s) ∈ tc.graph then tc.graph else (f, s) :: tc.graph,
        queryRecord := ((f, s), q) :: tc.queryRecord } := by
  unfold TransitivityChecker.addComparison
  simp only []
  split <;> rfl

lemma addComparison_result (tc : TransitivityChecker) (f s q : ℤ) :
    (tc.addComparison f s q).1 =
      (((tc.addComparison f s q).2.findCycle f).map
        fun cycle =>
          ({ ctype := .transitivityViolation, severity := 1, cycle := cycle } :
            Contradiction)) := by
  rw [addComparison_state]
  unfold TransitivityChecker.addComparison
  simp only []
  split <;> rename_i h <;> rw [h] <;> rfl

/-- Claim C2: feeding the transitivity checker three answers over distinct
packet ids that form the directed cycle a before b before c before a makes
the closing insertion return a TRANSITIVITY_VIOLATION contradiction of
severity 1.0, which the severity-0.99 filter therefore keeps as definitive. -/
theorem claim_C2_transitivity_cycle_definitive
    (a b c q1 q2 q3 : ℤ) (hab : a ≠ b) (hbc : b ≠ c) (hac : a ≠ c) :
    ∃ ct : Contradiction,
      (((newTransitivityChecker.addComparison a b q1).2.addComparison
          b c q2).2.addComparison c a q3).1 = some ct ∧
      ct.ctype = .transitivityViolation ∧ ct.severity = 1 ∧
      ct ∈ definitiveContradictions [ct] := by
  have hba := hab.symm
  have hcb := hbc.symm
  have hca := hac.symm
  have nc : neighbors [(c, a), (b, c), (a, b)] c = [a] := by
    simp [neighbors, hbc, hac]
  have na : neighbors [(c, a), (b, c), (a, b)] a = [b] := by
    simp [neighbors, hca, hba]
  have nb : neighbors [(c, a), (b, c), (a, b)] b = [c] := by
    simp [neighbors, hcb, hab]
  have hdfs : ∀ fuel : ℕ, dfsGo [(c, a), (b, c), (a, b)] c (fuel + 2) a [c]
      [(a, c)] = (true, [b, a, c], [(b, a), (a, c)]) := by
    intro fuel
    rw [show fuel + 2 = (fuel + 1) + 1 from rfl]
    simp [dfsGo, dfsNbrs, na, nb, hab, hba, hbc, hcb, hac, hca]
  have hrecaux : ∀ fuel : ℕ, reconstructCycleAux [(c, a), (b, c), (a, b)] c
      [b, a] (fuel + 3) c [c] = [c, a, b] := by
    intro fuel
    rw [show fuel + 3 = ((fuel + 1) + 1) + 1 from rfl]
    simp [reconstructCycleAux, reconScan, nc, na, nb, hab, hba, hbc, hcb,
      hac, hca]
  have hrec : reconstructCycle [(c, a), (b, c), (a, b)] c [(b, a), (a, c)] =
      [c, a, b] := by
    unfold reconstructCycle
    rw [show (102 : ℕ) = 99 + 3 from rfl]
    simpa using hrecaux 99
  have hfcn : findCycleNbrs [(c, a), (b, c), (a, b)] c 8 [a] [] =
      some [c, a, b] := by
    rw [show (8 : ℕ) = 6 + 2 from rfl]
    simp [findCycleNbrs, hac, hdfs 6, hrec]
  have s1 : (newTransitivityChecker.addComparison a b q1).2 =
      ⟨[(a, b)], [((a, b), q1)]⟩ := by
    rw [addComparison_state]
    simp [newTransitivityChecker]
  rw [s1]
  have s2 : (TransitivityChecker.addComparison ⟨[(a, b)], [((a, b), q1)]⟩
      b c q2).2 = ⟨[(b, c), (a, b)], [((b, c), q2), ((a, b), q1)]⟩ := by
    rw [addComparison_state]
    simp [Prod.ext_iff, hba]
  rw [s2]
  refine ⟨⟨.transitivityViolation, 1, [c, a, b]⟩, ?_, rfl, rfl, ?_⟩
  · rw [addComparison_result, addComparison_state]
    have hmem : ((c, a) ∈ [(b, c), (a, b)]) = False := by
      simp [Prod.ext_iff, hcb, hca]
    simp only [hmem, if_false]
    have hfc : TransitivityChecker.findCycle
        ⟨(c, a) :: [(b, c), (a, b)],
          ((c, a), q3) :: [((b, c), q2), ((a, b), q1)]⟩ c = some [c, a, b] := by
      unfold TransitivityChecker.findCycle
      simp only []
      rw [show ((c, a) :: [(b, c), (a, b)]) = [(c, a), (b, c), (a, b)] from rfl]
      rw [nc]
      rw [show 2 * ([(c, a), (b, c), (a, b)] : List (ℤ × ℤ)).length + 2 = 8
        from rfl]
      exact hfcn
    rw [hfc]
    rfl
  · simp [definitiveContradictions]
    norm_num

/-- Witness for claim C2 with the cycle 1, 2, 3. -/
theorem claim_C2_witness :
    ((1 : ℤ) ≠ 2 ∧ (2 : ℤ) ≠ 3 ∧ (1 : ℤ) ≠ 3) ∧
    (∃ ct : Contradiction,
      (((newTransitivityChecker.addComparison 1 2 10).2.addComparison
          2 3 11).2.addComparison 3 1 12).1 = some ct ∧
      ct.ctype = .transitivityViolation ∧ ct.severity = 1 ∧
      ct ∈ definitiveContradictions [ct]) :=
  ⟨⟨by decide, by decide, by decide⟩,
   claim_C2_transitivity_cycle_definitive 1 2 3 10 11 12
     (by decide) (by decide) (by decide)⟩

/-- Counterexample for claim C4: the oracle answers Compare(1, 2) and the
reversed Compare(2, 1) both with Packet1Faster, which is inconsistent under
the swap, yet the commitment checker reports no contradiction for either
call, because queryHash keys the two orderings differently and never
normalises them. -/
theorem claim_C4_counterexample :
    (newCommitmentChecker.checkAndRecord (cmpQuery 1 1 2)
        (cmpResponse (cmpQuery 1 1 2) .packet1Faster)).1 = none ∧
    ((newCommitmentChecker.checkAndRecord (cmpQuery 1 1 2)
        (cmpResponse (cmpQuery 1 1 2) .packet1Faster)).2.checkAndRecord
        (cmpQuery 2 2 1) (cmpResponse (cmpQuery 2 2 1) .packet1Faster)).1 =
      none := by
  constructor <;> rfl

/-- Claim C4 as amended: the commitment check is order-sensitive.  The hash
of a Compare query keeps the packet ids in order, so the reversed pair hashes
to a different key and a reversed re-query is never checked against the
stored response; a contradiction, of type COMMITMENT_VIOLATION and severity
1.0, arises exactly on a re-query under the identical key whose
ComparisonAnswer differs from the stored one. -/
theorem claim_C4_commitment_order_sensitive :
    (∀ q q' : Query, q.qtype = .comparison → q'.qtype = .comparison →
        q.packetID ≠ q.packetID2 → q'.packetID = q.packetID2 →
        q'.packetID2 = q.packetID → queryHash q ≠ queryHash q') ∧
    (∀ (cc : CommitmentChecker) (q : Query) (r prev : Response),
        respLookup (queryHash q) cc.responseHistory = some prev →
        q.qtype = .comparison →
        (((cc.checkAndRecord q r).1 ≠ none) ↔
          r.comparisonAnswer ≠ prev.comparisonAnswer) ∧
        (∀ ctd, (cc.checkAndRecord q r).1 = some ctd →
          ctd.ctype = .commitmentViolation ∧ ctd.severity = 1)) ∧
    (∀ (cc : CommitmentChecker) (q : Query) (r : Response),
        respLookup (queryHash q) cc.responseHistory = none →
        (cc.checkAndRecord q r).1 = none) := by
  refine ⟨?_, ?_, ?_⟩
  · intro q q' h1 h2 hne ha hb heq
    have e2 : q.packetID = q'.packetID :=
      congrArg (fun k : QueryKey => k.2.1) heq
    exact hne (e2.trans ha)
  · intro cc q r prev hl hq
    unfold CommitmentChecker.checkAndRecord
    rw [hl]
    simp only [hq]
    constructor
    · by_cases hne : r.comparisonAnswer = prev.comparisonAnswer
      · simp [hne]
      · simp [hne]
    · intro ctd hctd
      by_cases hne : r.comparisonAnswer = prev.comparisonAnswer
      · simp [hne] at hctd
      · simp [hne] at hctd
        rw [← hctd]
        exact ⟨rfl, rfl⟩
  · intro cc q r hl
    unfold CommitmentChecker.checkAndRecord
    rw [hl]

/-- Witness for the amended claim C4 at concrete queries: the two orderings
of the pair 1, 2 hash differently; an exact re-query answered differently is
flagged with severity 1.0; a first-time key is never flagged. -/
theorem claim_C4_amended_witness :
    (((cmpQuery 1 1 2).qtype = .comparison ∧
      (cmpQuery 2 2 1).qtype = .comparison ∧
      (cmpQuery 1 1 2).packetID ≠ (cmpQuery 1 1 2).packetID2 ∧
      respLookup (queryHash (cmpQuery 3 1 2))
        ((newCommitmentChecker.checkAndRecord (cmpQuery 1 1 2)
          (cmpResponse (cmpQuery 1 1 2) .packet1Faster)).2.responseHistory) =
        some (cmpResponse (cmpQuery 1 1 2) .packet1Faster) ∧
      respLookup (queryHash (cmpQuery 1 1 2))
        newCommitmentChecker.responseHistory = none) ∧
     queryHash (cmpQuery 1 1 2) ≠ queryHash (cmpQuery 2 2 1)) ∧
    ((((newCommitmentChecker.checkAndRecord (cmpQuery 1 1 2)
          (cmpResponse (cmpQuery 1 1 2) .packet1Faster)).2.checkAndRecord
          (cmpQuery 3 1 2)
          (cmpResponse (cmpQuery 3 1 2) .packet2Faster)).1 ≠ none ↔
        (cmpResponse (cmpQuery 3 1 2) .packet2Faster).comparisonAnswer ≠
          (cmpResponse (cmpQuery 1 1 2) .packet1Faster).comparisonAnswer) ∧
     (newCommitmentChecker.checkAndRecord (cmpQuery 1 1 2)
        (cmpResponse (cmpQuery 1 1 2) .packet1Faster)).1 = none) :=
  ⟨⟨⟨rfl, rfl, by decide, by decide, rfl⟩,
    claim_C4_commitment_order_sensitive.1 (cmpQuery 1 1 2) (cmpQuery 2 2 1)
      rfl rfl (by decide) (by decide) (by decide)⟩,
   (claim_C4_commitment_order_sensitive.2.1 _ (cmpQuery 3 1 2)
      (cmpResponse (cmpQuery 3 1 2) .packet2Faster)
      (cmpResponse (cmpQuery 1 1 2) .packet1Faster) (by decide) rfl).1,
   claim_C4_commitment_order_sensitive.2.2 newCommitmentChecker
     (cmpQuery 1 1 2) (cmpResponse (cmpQuery 1 1 2) .packet1Faster) rfl⟩

lemma insertList_sorted (now : ℚ) (l : List (ℚ × ℕ × Act)) (q q' : List Ev)
    (h : InsertList now l q q') (hs : TimeSorted q) : TimeSorted q' := by
  induction h with
  | nil => exact hs
  | cons d i a rest q q1 q2 hsort hrest ih => exact ih hsort.2

lemma insertList_mem (now : ℚ) (l : List (ℚ × ℕ × Act)) (q q' : List Ev)
    (h : InsertList now l q q') :
    ∀ x ∈ q', x ∈ q ∨ ∃ p ∈ l, x = ⟨now + p.1, p.2.1, p.2.2⟩ := by
  induction h with
  | nil => exact fun x hx => Or.inl hx
  | cons d i a rest q q1 q2 hsort hrest ih =>
    intro x hx
    rcases ih x hx with hx1 | ⟨p, hp, hxp⟩
    · have hx2 : x ∈ q ++ [⟨now + d, i, a⟩] := hsort.1.mem_iff.mpr hx1
      rcases List.mem_append.mp hx2 with hx3 | hx3
      · exact Or.inl hx3
      · right
        refine ⟨(d, i, a), List.mem_cons_self _ _, ?_⟩
        simpa using hx3
    · exact Or.inr ⟨p, List.mem_cons_of_mem _ hp, hxp⟩

/-- Claim C7 as amended: in every permitted run of the scheduler, starting
from a time-sorted pending slice whose events are not earlier than the clock
and whose actions only schedule with non-negative delays, the observed clock
values form a non-decreasing chain; equal-time events may however execute in
either order, because sort.Slice is not a stable sort, so insertion order is
not guaranteed. -/
theorem claim_C7_run_now_chain_monotone :
    ∀ (u : ℚ) (s : SimState) (log : List (ℚ × ℕ)) (s' : SimState),
    RunR u s log s' → TimeSorted s.events →
    (∀ e ∈ s.events, s.now ≤ e.time ∧ ActDelaysNonneg e.act) →
    List.Chain' (· ≤ ·) (s.now :: log.map Prod.fst) := by
  intro u s log s' hrun
  induction hrun with
  | done s hev =>
    intro _ _
    simp
  | past s e rest hev hlt =>
    intro _ _
    simp
  | step s e rest q' log s' hev hle hins hrun ih =>
    intro hsort hbound
    have hmem : e ∈ s.events := by rw [hev]; exact List.mem_cons_self _ _
    have hstep := hbound e hmem
    have hsort' : TimeSorted (e :: rest) := by rwa [hev] at hsort
    rcases hact : e.act with ⟨l⟩
    have hnn := hstep.2
    rw [hact] at hnn
    rcases hnn with ⟨l, hd, ha⟩
    have hq' : TimeSorted q' :=
      insertList_sorted e.time e.act.subs rest q' hins
        (List.Pairwise.of_cons hsort')
    have hbound' : ∀ x ∈ q', e.time ≤ x.time ∧ ActDelaysNonneg x.act := by
      intro x hx
      rcases insertList_mem e.time e.act.subs rest q' hins x hx with
        hx1 | ⟨p, hp, hxp⟩
      · constructor
        · exact List.rel_of_pairwise_cons hsort' hx1
        · exact (hbound x (by rw [hev]; exact List.mem_cons_of_mem _ hx1)).2
      · have hpl : p ∈ l := by rwa [hact] at hp
        constructor
        · rw [hxp]
          have := hd p hpl
          simp only []
          linarith
        · rw [hxp]
          exact ha p hpl
    have hchain := ih hq' hbound'
    simp only [List.map_cons]
    rw [List.chain'_cons]
    exact ⟨hstep.1, hchain⟩

/-- Counterexample for claim C7: two events both at time 5, inserted with
ids 1 then 2, need not execute in insertion order.  The run below is a
permitted behavior of the re-sorting scheduler (sort.Slice is unstable, so
the time-sorted permutation placing the later insertion first is allowed)
and it executes id 2 before id 1. -/
theorem claim_C7_counterexample :
    ¬ (∀ (s1 s2 : SimState) (log : List (ℚ × ℕ)) (s3 : SimState),
        scheduleR ⟨0, []⟩ 5 1 (Act.mk []) s1 →
        scheduleR s1 5 2 (Act.mk []) s2 →
        RunR 10 s2 log s3 → log.map Prod.snd = [1, 2]) := by
  intro h
  have h1 : scheduleR ⟨0, []⟩ 5 1 (Act.mk [])
      ⟨0, [⟨5, 1, Act.mk []⟩]⟩ := by
    refine ⟨rfl, ?_, ?_⟩
    · simp
    · simp [TimeSorted]
  have h2 : scheduleR ⟨0, [⟨5, 1, Act.mk []⟩]⟩ 5 2 (Act.mk [])
      ⟨0, [⟨5, 2, Act.mk []⟩, ⟨5, 1, Act.mk []⟩]⟩ := by
    refine ⟨rfl, ?_, ?_⟩
    · have he : (([⟨5, 1, Act.mk []⟩] ++ [⟨(0:ℚ) + 5, 2, Act.mk []⟩] :
            List Ev)) = ([⟨5, 1, Act.mk []⟩, ⟨5, 2, Act.mk []⟩] : List Ev) := by
        norm_num
      rw [he]
      exact List.Perm.swap _ _ _
    · simp [TimeSorted]
  have h3 : RunR 10 ⟨0, [⟨5, 2, Act.mk []⟩, ⟨5, 1, Act.mk []⟩]⟩
      [(5, 2), (5, 1)] ⟨5, []⟩ := by
    refine RunR.step 10 _ ⟨5, 2, Act.mk []⟩ [⟨5, 1, Act.mk []⟩]
      [⟨5, 1, Act.mk []⟩] _ _ rfl (by norm_num) (InsertList.nil 5 _) ?_
    refine RunR.step 10 _ ⟨5, 1, Act.mk []⟩ [] [] _ _ rfl (by norm_num)
      (InsertList.nil 5 _) ?_
    exact RunR.done 10 ⟨5, []⟩ rfl
  have := h _ _ _ _ h1 h2 h3
  simp at this

/-- Witness for the amended claim C7 at a concrete one-event run. -/
theorem claim_C7_amended_witness :
    (RunR 2 ⟨0, [⟨1, 0, Act.mk []⟩]⟩ [(1, 0)] ⟨1, []⟩ ∧
     TimeSorted [⟨1, 0, Act.mk []⟩] ∧
     (∀ e ∈ [(⟨1, 0, Act.mk []⟩ : Ev)], (0:ℚ) ≤ e.time ∧
        ActDelaysNonneg e.act)) ∧
    List.Chain' (· ≤ ·) ((0:ℚ) :: ([((1:ℚ), (0:ℕ))].map Prod.fst)) := by
  have hrun : RunR 2 ⟨0, [⟨1, 0, Act.mk []⟩]⟩ [(1, 0)] ⟨1, []⟩ := by
    refine RunR.step 2 _ ⟨1, 0, Act.mk []⟩ [] [] _ _ rfl (by norm_num)
      (InsertList.nil 1 _) ?_
    exact RunR.done 2 ⟨1, []⟩ rfl
  have hsort : TimeSorted [⟨1, 0, Act.mk []⟩] := by simp [TimeSorted]
  have hbound : ∀ e ∈ [(⟨1, 0, Act.mk []⟩ : Ev)], (0:ℚ) ≤ e.time ∧
      ActDelaysNonneg e.act := by
    intro e he
    simp only [List.mem_singleton] at he
    subst he
    exact ⟨by norm_num, ActDelaysNonneg.mk [] (by simp) (by simp)⟩
  exact ⟨⟨hrun, hsort, hbound⟩,
    claim_C7_run_now_chain_monotone 2 ⟨0, [⟨1, 0, Act.mk []⟩]⟩ [(1, 0)]
      ⟨1, []⟩ hrun hsort hbound⟩

/-- Counterexample for claim C8: Schedule performs no validation, so a call
with a negative delay is not rejected; the event is enqueued at now + delay
and the pending queue changes. -/
theorem claim_C8_counterexample :
    ¬ (∀ s' : SimState,
        scheduleR ⟨1, []⟩ (-1) 7 (Act.mk []) s' → s'.events = []) := by
  intro h
  have h1 : scheduleR ⟨1, []⟩ (-1) 7 (Act.mk [])
      ⟨1, [⟨1 + -1, 7, Act.mk []⟩]⟩ := by
    refine ⟨rfl, ?_, ?_⟩
    · simp
    · simp [TimeSorted]
  have := h _ h1
  simp at this

/-- Claim C8 as amended: Schedule never rejects: for any delay, negative
included, exactly the event at now + delay is added to the pending queue;
ScheduleAt with a past time returns silently with the state unchanged; the
scheduler reports no error in either case (no error value exists). -/
theorem claim_C8_schedule_no_validation :
    (∀ (s : SimState) (t : ℚ) (i : ℕ) (a : Act) (s' : SimState),
        t < s.now → scheduleAtR s t i a s' → s' = s) ∧
    (∀ (s : SimState) (d : ℚ) (i : ℕ) (a : Act) (s' : SimState),
        scheduleR s d i a s' →
        s'.events.length = s.events.length + 1 ∧
        (⟨s.now + d, i, a⟩ : Ev) ∈ s'.events) := by
  constructor
  · intro s t i a s' hlt hsch
    unfold scheduleAtR at hsch
    rwa [if_pos hlt] at hsch
  · intro s d i a s' hsch
    obtain ⟨hnow, hperm, hsort⟩ := hsch
    constructor
    · have hlen := hperm.length_eq
      simpa using hlen.symm
    · exact hperm.mem_iff.mp (by simp)

/-- Witness for the amended claim C8: a past ScheduleAt leaves the state
unchanged; a negative-delay Schedule enqueues the event. -/
theorem claim_C8_amended_witness :
    (((0:ℚ) < (⟨1, []⟩ : SimState).now ∧
      scheduleAtR ⟨1, []⟩ 0 3 (Act.mk []) ⟨1, []⟩ ∧
      scheduleR ⟨1, []⟩ (-1) 7 (Act.mk [])
        ⟨1, [⟨1 + -1, 7, Act.mk []⟩]⟩) ∧
     (⟨1, []⟩ : SimState) = ⟨1, []⟩) ∧
    ((⟨1, [⟨1 + -1, 7, Act.mk []⟩]⟩ : SimState).events.length =
      (⟨1, []⟩ : SimState).events.length + 1 ∧
     (⟨(⟨1, []⟩ : SimState).now + -1, 7, Act.mk []⟩ : Ev) ∈
      (⟨1, [⟨1 + -1, 7, Act.mk []⟩]⟩ : SimState).events) := by
  have hat : scheduleAtR ⟨1, []⟩ 0 3 (Act.mk []) ⟨1, []⟩ := by
    unfold scheduleAtR
    rw [if_pos (by norm_num : (0:ℚ) < (1:ℚ))]
  have hsch : scheduleR ⟨1, []⟩ (-1) 7 (Act.mk [])
      ⟨1, [⟨1 + -1, 7, Act.mk []⟩]⟩ := by
    refine ⟨rfl, ?_, ?_⟩
    · simp
    · simp [TimeSorted]
  exact ⟨⟨⟨by norm_num, hat, hsch⟩,
    claim_C8_schedule_no_validation.1 ⟨1, []⟩ 0 3 (Act.mk []) ⟨1, []⟩
      (by norm_num) hat⟩,
    claim_C8_schedule_no_validation.2 ⟨1, []⟩ (-1) 7 (Act.mk [])
      ⟨1, [⟨1 + -1, 7, Act.mk []⟩]⟩ hsch⟩

lemma goSearchAux_spec (f : ℕ → Bool) :
    ∀ (fuel i j : ℕ), i ≤ j → j - i ≤ fuel →
    (∀ k l, i ≤ k → k ≤ l → l < j → f k = true → f l = true) →
    (i ≤ goSearchAux f fuel i j ∧ goSearchAux f fuel i j ≤ j ∧
     (∀ k, i ≤ k → k < goSearchAux f fuel i j → f k = false) ∧
     (goSearchAux f fuel i j < j → f (goSearchAux f fuel i j) = true)) := by
  intro fuel
  induction fuel with
  | zero =>
    intro i j hij hfuel _
    have : i = j := by omega
    subst this
    unfold goSearchAux
    exact ⟨le_refl i, le_refl i, fun k h1 h2 => by omega, fun h => by omega⟩
  | succ fuel ih =>
    intro i j hij hfuel hmono
    unfold goSearchAux
    by_cases hlt : i < j
    · rw [if_pos hlt]
      have hhi : i ≤ (i + j) / 2 := by
        rw [Nat.le_div_iff_mul_le (by norm_num)]
        omega
      have hhj : (i + j) / 2 < j := by
        rw [Nat.div_lt_iff_lt_mul (by norm_num)]
        omega
      by_cases hf : f ((i + j) / 2)
      · rw [if_pos hf]
        have hsub := ih i ((i + j) / 2) hhi (by omega)
          (fun k l h1 h2 h3 => hmono k l h1 h2 (by omega))
        refine ⟨hsub.1, hsub.2.1.trans (le_of_lt hhj), hsub.2.2.1, ?_⟩
        intro hr
        by_cases hrh : goSearchAux f fuel i ((i + j) / 2) < (i + j) / 2
        · exact hsub.2.2.2 hrh
        · have : goSearchAux f fuel i ((i + j) / 2) = (i + j) / 2 := by
            omega
          rw [this]
          exact hf
      · rw [if_neg hf]
        have hsub := ih ((i + j) / 2 + 1) j (by omega) (by omega)
          (fun k l h1 h2 h3 => hmono k l (by omega) h2 h3)
        refine ⟨by omega, hsub.2.1, ?_, hsub.2.2.2⟩
        intro k hk1 hk2
        by_cases hkh : k ≤ (i + j) / 2
        · by_cases hfk : f k
          · exact absurd (hmono k ((i + j) / 2) hk1 hkh hhj hfk)
              (by simpa using hf)
          · simpa using hfk
        · exact hsub.2.2.1 k (by omega) hk2
    · rw [if_neg hlt]
      have : i = j := by omega
      subst this
      exact ⟨le_refl i, le_refl i, fun k h1 h2 => by omega, fun h => by omega⟩

/-- Claim C9: for an initialised delay model with a non-empty transition
list whose times are strictly increasing starting at 0, base_at(t) returns
the base delay of the transition with the largest time at most t: the
hypotheses on index i state exactly that transition i is the latest one not
after t (covering the at-a-transition, strictly-between, and past-the-last
cases). -/
theorem claim_C9_base_at_piecewise_constant
    (dm : DelayModel) (fallback t : ℚ) (i : ℕ)
    (hinit : dm.initialised = true)
    (hne : dm.transitions ≠ [])
    (hsorted : List.Chain' (fun p q => p.time < q.time) dm.transitions)
    (_hzero : (dm.transitions.getD 0 ⟨0, 0⟩).time = 0)
    (_ht : 0 ≤ t)
    (hi : i < dm.transitions.length)
    (hle : (dm.transitions.getD i ⟨0, 0⟩).time ≤ t)
    (hnext : i + 1 = dm.transitions.length ∨
        t < (dm.transitions.getD (i + 1) ⟨0, 0⟩).time) :
    dm.getBaseDelay fallback t = (dm.transitions.getD i ⟨0, 0⟩).baseDelay := by
  haveI : IsTrans PathTransition (fun p q => p.time < q.time) :=
    ⟨fun a b c hab hbc => lt_trans hab hbc⟩
  have hpw : List.Pairwise (fun p q => p.time < q.time) dm.transitions :=
    List.chain'_iff_pairwise.mp hsorted
  have hmono_times : ∀ k l, k ≤ l → l < dm.transitions.length →
      (dm.transitions.getD k ⟨0, 0⟩).time ≤ (dm.transitions.getD l ⟨0, 0⟩).time := by
    intro k l hkl hln
    rcases Nat.lt_or_ge k l with hlt | hge
    · have hk : k < dm.transitions.length := by omega
      rw [List.getD_eq_getElem dm.transitions ⟨0, 0⟩ hk,
        List.getD_eq_getElem dm.transitions ⟨0, 0⟩ hln]
      exact le_of_lt (List.pairwise_iff_getElem.mp hpw k l hk hln hlt)
    · have : k = l := by omega
      rw [this]
  set f := fun k => decide (t < (dm.transitions.getD k ⟨0, 0⟩).time) with hf
  have hmono : ∀ k l, 0 ≤ k → k ≤ l → l < dm.transitions.length →
      f k = true → f l = true := by
    intro k l _ hkl hln hfk
    rw [hf] at hfk ⊢
    simp only [decide_eq_true_iff] at hfk ⊢
    exact lt_of_lt_of_le hfk (hmono_times k l hkl hln)
  have hspec := goSearchAux_spec f dm.transitions.length 0 dm.transitions.length
    (Nat.zero_le _) (by omega) (fun k l h1 h2 h3 => hmono k l h1 h2 h3)
  have hgs : goSearch dm.transitions.length f =
      goSearchAux f dm.transitions.length 0 dm.transitions.length := rfl
  have hr1 : i + 1 ≤ goSearch dm.transitions.length f := by
    by_contra hcon
    push_neg at hcon
    have hrn : goSearch dm.transitions.length f < dm.transitions.length := by
      omega
    have hfr := hspec.2.2.2 (by rw [← hgs] at *; omega)
    rw [hf] at hfr
    simp only [decide_eq_true_iff] at hfr
    have := hmono_times (goSearch dm.transitions.length f) i (by omega) hi
    rw [hgs] at this
    have h2 := lt_of_lt_of_le hfr this
    exact absurd (lt_of_lt_of_le h2 hle) (lt_irrefl t)
  have hr2 : goSearch dm.transitions.length f ≤ i + 1 := by
    rcases hnext with hlast | hless
    · rw [hgs, hlast]
      exact hspec.2.1
    · by_contra hcon
      push_neg at hcon
      have hfi : f (i + 1) = false := by
        have := hspec.2.2.1 (i + 1) (Nat.zero_le _) (by rw [← hgs] at *; omega)
        exact this
      rw [hf] at hfi
      simp only [decide_eq_false_iff_not] at hfi
      exact hfi hless
  have hridx : goSearch dm.transitions.length f = i + 1 := by omega
  unfold DelayModel.getBaseDelay
  rw [if_neg (by simp [hinit, hne])]
  simp only []
  rw [← hf, hridx]
  rw [if_neg (Nat.succ_ne_zero i)]
  simp

/-- Witness for claim C9: between the transitions at times 0 and 10, the
base delay at t = 3 is the first base delay. -/
theorem claim_C9_witness :
    (witnessDelayModel.initialised = true ∧
     witnessDelayModel.transitions ≠ [] ∧
     List.Chain' (fun p q => p.time < q.time) witnessDelayModel.transitions ∧
     (witnessDelayModel.transitions.getD 0 ⟨0, 0⟩).time = 0 ∧
     (0:ℚ) ≤ 3 ∧ 0 < witnessDelayModel.transitions.length ∧
     (witnessDelayModel.transitions.getD 0 ⟨0, 0⟩).time ≤ 3 ∧
     (0 + 1 = witnessDelayModel.transitions.length ∨
       (3:ℚ) < (witnessDelayModel.transitions.getD (0 + 1) ⟨0, 0⟩).time)) ∧
    witnessDelayModel.getBaseDelay 0 3 =
      (witnessDelayModel.transitions.getD 0 ⟨0, 0⟩).baseDelay := by
  have hch : List.Chain' (fun p q : PathTransition => p.time < q.time)
      witnessDelayModel.transitions := by
    rw [show witnessDelayModel.transitions = [⟨0, 5⟩, ⟨10, 7⟩] from rfl,
      List.chain'_cons]
    exact ⟨by decide, List.chain'_singleton _⟩
  exact ⟨⟨rfl, by decide, hch, by decide, by decide, by decide, by decide,
    Or.inr (by decide)⟩,
   claim_C9_base_at_piecewise_constant witnessDelayModel 0 3 0 rfl
     (by decide) hch (by decide) (by decide) (by decide) (by decide)
     (Or.inr (by decide))⟩

lemma update_absorbs_zero (bt : BayesianTracker) (queryID : ℤ)
    (suspicion : ℝ) (contradiction : Bool)
    (h : bt.currentPHonest = 0) :
    (bt.update queryID suspicion contradiction).2.currentPHonest = 0 := by
  unfold BayesianTracker.update
  cases contradiction
  · simp only [Bool.false_eq_true, if_false]
    split
    · rw [h]
      ring
    · exact h
  · simp

/-- Claim C10: a recorded contradiction is absorbing.  Update with the
contradiction flag zeroes CurrentPHonest, and it stays exactly 0 under every
later Update, whatever suspicion and flag the later calls carry: either the
likelihood-weighted sum is not positive and the belief is kept, or the
posterior numerator contains the factor 0. -/
theorem claim_C10_contradiction_absorbing
    (bt : BayesianTracker) (queryID : ℤ) (suspicion : ℝ)
    (updates : List (ℤ × ℝ × Bool)) :
    (bt.update queryID suspicion true).2.currentPHonest = 0 ∧
    (runUpdates (bt.update queryID suspicion true).2
        updates).currentPHonest = 0 := by
  have h0 : (bt.update queryID suspicion true).2.currentPHonest = 0 := by
    unfold BayesianTracker.update
    simp
  refine ⟨h0, ?_⟩
  generalize hb : (bt.update queryID suspicion true).2 = bt1 at h0
  clear hb
  induction updates generalizing bt1 with
  | nil => exact h0
  | cons u us ih =>
    exact ih _ (update_absorbs_zero bt1 u.1 u.2.1 u.2.2 h0)

/-- Claim C6: the SPRT has boundaries A = (1-beta)/alpha and
B = beta/(1-alpha); a query not involving a believed-suspicious packet
leaves the state unchanged; an involving query adds log(p1/p0) when the
observation was suspicious and log((1-p1)/(1-p0)) otherwise, with p0 = 0.05
and p1 = 0.40, and ProcessResult derives the suspicious observation as
suspicion exceeding 0.3; from an undecided state the new decision is Reject
exactly when exp(logLR) reaches A and Accept exactly when it is at most B
(the boundaries cannot both trigger since B is less than 1 and A is greater
than 1 for 0 < alpha, 0 < beta with alpha + beta below 1). -/
theorem claim_C6_sprt_boundaries_and_update (alpha beta theta : ℝ) (s : SPRTTest) (obs : Bool)
    (ct : ConfidenceTracker) (qid : ℤ) (susp : ℝ) (contra inv : Bool)
    (ha : 0 < alpha) (hb : 0 < beta) (hab : alpha + beta < 1) :
    ((newSPRTTest alpha beta theta).A = (1 - beta) / alpha ∧
     (newSPRTTest alpha beta theta).B = beta / (1 - alpha)) ∧
    (s.update false obs = (s.decision, s)) ∧
    ((s.update true obs).2.logLR = s.logLR +
        (if obs then Real.log ((2/5 : ℝ) / (1/20))
         else Real.log ((1 - 2/5 : ℝ) / (1 - 1/20))) ∧
     (s.update true obs).2.nQueries = s.nQueries + 1) ∧
    ((ct.processResult qid susp contra inv).sprt =
      (ct.sprt.update inv (if (3:ℝ)/10 < susp then true else false)).2) ∧
    (s.decision = .undecided → s.A = (1 - beta) / alpha →
      s.B = beta / (1 - alpha) →
      (((s.update true obs).2.decision = .rejectH0 ↔
          s.A ≤ Real.exp ((s.update true obs).2.logLR)) ∧
       ((s.update true obs).2.decision = .acceptH0 ↔
          Real.exp ((s.update true obs).2.logLR) ≤ s.B))) := by
  refine ⟨⟨rfl, rfl⟩, ?_, ?_, rfl, ?_⟩
  · unfold SPRTTest.update
    simp
  · unfold SPRTTest.update
    simp only [Bool.true_eq_false, if_false]
    constructor
    · trivial
    · trivial
  · intro hdec hA hB
    have halpha1 : alpha < 1 := by linarith
    have hBlt1 : s.B < 1 := by
      rw [hB]
      rw [div_lt_one (by linarith)]
      linarith
    have hAgt1 : 1 < s.A := by
      rw [hA]
      rw [lt_div_iff₀ ha]
      linarith
    have hBA : s.B < s.A := lt_trans hBlt1 hAgt1
    unfold SPRTTest.update
    simp only [Bool.true_eq_false, if_false]
    set lr := Real.exp (s.logLR +
      (if obs then Real.log ((2/5 : ℝ) / (1/20))
       else Real.log ((1 - 2/5 : ℝ) / (1 - 1/20)))) with hlr
    constructor
    · constructor
      · intro hd
        by_cases h1 : s.A ≤ lr
        · exact h1
        · exfalso
          simp only [if_neg h1] at hd
          by_cases h2 : lr ≤ s.B
          · simp [h2] at hd
          · simp [h2, hdec] at hd
      · intro h1
        simp [h1]
    · constructor
      · intro hd
        by_cases h1 : s.A ≤ lr
        · simp [h1] at hd
        · simp only [if_neg h1] at hd
          by_cases h2 : lr ≤ s.B
          · exact h2
          · simp [h2, hdec] at hd
      · intro h2
        have h1 : ¬ s.A ≤ lr := by
          intro hcon
          linarith
        simp [h1, h2]

/-- Witness for claim C6 at alpha = 0.05, beta = 0.10. -/
theorem claim_C6_witness :
    ((0:ℝ) < 1/20 ∧ (0:ℝ) < 1/10 ∧ (1:ℝ)/20 + 1/10 < 1) ∧
    (((newSPRTTest (1/20) (1/10) (2/5)).A = (1 - 1/10) / (1/20) ∧
      (newSPRTTest (1/20) (1/10) (2/5)).B = (1/10) / (1 - 1/20)) ∧
     ((newSPRTTest (1/20) (1/10) (2/5)).update false true =
       ((newSPRTTest (1/20) (1/10) (2/5)).decision,
        newSPRTTest (1/20) (1/10) (2/5))) ∧
     (((newSPRTTest (1/20) (1/10) (2/5)).update true true).2.logLR =
        (newSPRTTest (1/20) (1/10) (2/5)).logLR +
          (if true then Real.log ((2/5 : ℝ) / (1/20))
           else Real.log ((1 - 2/5 : ℝ) / (1 - 1/20))) ∧
      ((newSPRTTest (1/20) (1/10) (2/5)).update true true).2.nQueries =
        (newSPRTTest (1/20) (1/10) (2/5)).nQueries + 1) ∧
     ((witnessConfidenceTracker.processResult 1 (1/2) false true).sprt =
       (witnessConfidenceTracker.sprt.update true
         (if (3:ℝ)/10 < 1/2 then true else false)).2) ∧
     ((newSPRTTest (1/20) (1/10) (2/5)).decision = .undecided →
      (newSPRTTest (1/20) (1/10) (2/5)).A = (1 - 1/10) / (1/20) →
      (newSPRTTest (1/20) (1/10) (2/5)).B = (1/10) / (1 - 1/20) →
      ((((newSPRTTest (1/20) (1/10) (2/5)).update true true).2.decision =
           .rejectH0 ↔
         (newSPRTTest (1/20) (1/10) (2/5)).A ≤
           Real.exp (((newSPRTTest (1/20) (1/10)
             (2/5)).update true true).2.logLR)) ∧
       (((newSPRTTest (1/20) (1/10) (2/5)).update true true).2.decision =
           .acceptH0 ↔
         Real.exp (((newSPRTTest (1/20) (1/10)
             (2/5)).update true true).2.logLR) ≤
           (newSPRTTest (1/20) (1/10) (2/5)).B)))) :=
  ⟨⟨by norm_num, by norm_num, by norm_num⟩,
   claim_C6_sprt_boundaries_and_update (1/20) (1/10) (2/5)
     (newSPRTTest (1/20) (1/10) (2/5)) true witnessConfidenceTracker
     1 (1/2) false true (by norm_num) (by norm_num) (by norm_num)⟩

/-- Witness for claim C3 at a concrete trial with packet 1 flagged. -/
theorem claim_C3_witness :
    (witnessOracleC.answeringStrat = .answerConsistent ∧
     witnessOracleC.comparisonHistory = [] ∧
     witnessOracleC.claimedMinDelays = [] ∧
     witnessOracleC.findRecordByID 1 = some witnessRecord1 ∧
     witnessOracleC.findRecordByID 2 = some witnessRecord2) ∧
    ((runComparisons witnessOracleC [(1, 2)]).answerComparison 1 2).1 =
      cmpDelays (claimedValue witnessOracleC witnessRecord1)
        (claimedValue witnessOracleC witnessRecord2) :=
  ⟨⟨rfl, rfl, rfl, by decide, by decide⟩,
   (claim_C3_consistent_claims_frozen witnessOracleC rfl rfl rfl [(1, 2)]).2
     1 2 witnessRecord1 witnessRecord2 (by decide) (by decide)⟩

end SatNet
